import Mathlib

/-!
Verification of the TriX PvP staking system: a shallow embedding of the
GameToken ERC-20 contract (src/contracts, bundled after MockUSDT), of the
PlayGame match-lifecycle contract (src/contracts/PlayGame.sol) and of the
leaderboard indexer (src/tools/leaderboard.js), together with proofs of the
lifecycle, escrow-accounting and aggregator properties stated in the
specification.

Addresses and bytes32 match identifiers are modelled as natural numbers,
with 0 playing the role of the zero address / zero id.  Token amounts are
natural numbers (uint256 quantities that never wrap on the modelled paths;
transfers check balances first).  GameToken inherits the OpenZeppelin v4
ERC20, AccessControl and Pausable behaviour, which is inlined here: the
`whenNotPaused` gate on `transfer`/`transferFrom`, the allowance spend in
`transferFrom`, the zero-address guards, and the admin-gated `pause` /
`unpause`.  A reverting Solidity call is modelled as `Except.error`: the
caller's state is only replaced on `Except.ok`, which is exactly the EVM's
transaction-revert semantics.
-/

/-- Typed failure results: every `require` of PlayGame.sol, and the revert
reasons of the OpenZeppelin ERC20 / AccessControl / Pausable code GameToken
inherits. -/
inductive Err where
  | notOwner
  | invalidMatchId
  | invalidPlayers
  | playersMustDiffer
  | invalidStake
  | matchExists
  | matchNotFound
  | matchNotCreated
  | notAPlayer
  | alreadyStaked
  | notOperator
  | matchNotStaked
  | invalidWinner
  | timeoutNotReached
  | insufficientBalance
  | insufficientAllowance
  | tokenPaused
  | tokenNotPaused
  | transferFromZero
  | transferToZero
  | approveFromZero
  | approveToZero
  | mintToZero
  | notTokenAdmin
  | notTokenMinter
deriving DecidableEq

namespace GameToken

/-- The sentinel `type(uint256).max` treated by ERC20 as an infinite
allowance. -/
def MAXUINT : Nat := 2 ^ 256 - 1

/-- Storage of the GameToken contract: ERC20 balances and allowances, the
AccessControl role members (the two roles GameToken uses), and the Pausable
flag.  The constructor grants both roles to the deployer. -/
structure TokenState where
  balances : Nat → Nat
  allowances : Nat → Nat → Nat
  minter : Nat → Bool
  admin : Nat → Bool
  paused : Bool

/-- Pointwise update of a balance map. -/
def updB (f : Nat → Nat) (k v : Nat) : Nat → Nat :=
  fun x => if x = k then v else f x

/-- Pointwise update of an allowance map. -/
def updA (f : Nat → Nat → Nat) (o s v : Nat) : Nat → Nat → Nat :=
  fun x y => if x = o ∧ y = s then v else f x y

/-- OpenZeppelin `ERC20._transfer`: non-zero endpoints, covering balance,
then move the amount (the sender slot is written first, then the recipient
slot is incremented, so a self-transfer nets to zero as in the source). -/
def transferCore (t : TokenState) (sender dst amount : Nat) :
    Except Err TokenState :=
  if sender = 0 then .error .transferFromZero
  else if dst = 0 then .error .transferToZero
  else if t.balances sender < amount then .error .insufficientBalance
  else
    let b1 := updB t.balances sender (t.balances sender - amount)
    .ok { t with balances := updB b1 dst (b1 dst + amount) }

/-- OpenZeppelin `ERC20._spendAllowance`: an infinite allowance is left
untouched, otherwise the allowance must cover the amount and is decreased
(through `_approve`, whose zero-address guards are kept). -/
def spendAllowance (t : TokenState) (owner spender amount : Nat) :
    Except Err TokenState :=
  if t.allowances owner spender = MAXUINT then .ok t
  else if t.allowances owner spender < amount then
    .error .insufficientAllowance
  else if owner = 0 then .error .approveFromZero
  else if spender = 0 then .error .approveToZero
  else
    .ok { t with
          allowances := updA t.allowances owner spender
            (t.allowances owner spender - amount) }

/-- `GameToken.transfer`: the `whenNotPaused` override, then the inherited
ERC20 transfer from the caller. -/
def transfer (t : TokenState) (caller dst amount : Nat) :
    Except Err TokenState :=
  if t.paused then .error .tokenPaused
  else transferCore t caller dst amount

/-- `GameToken.transferFrom`: the `whenNotPaused` override, then the
inherited ERC20 transferFrom — spend the caller's allowance from the source
account, then move the amount. -/
def transferFrom (t : TokenState) (caller fromAcct dst amount : Nat) :
    Except Err TokenState :=
  if t.paused then .error .tokenPaused
  else
    match spendAllowance t fromAcct caller amount with
    | .error e => .error e
    | .ok t1 => transferCore t1 fromAcct dst amount

/-- Inherited `ERC20.approve` (not pause-gated in GameToken). -/
def approve (t : TokenState) (caller spender amount : Nat) :
    Except Err TokenState :=
  if caller = 0 then .error .approveFromZero
  else if spender = 0 then .error .approveToZero
  else .ok { t with allowances := updA t.allowances caller spender amount }

/-- `GameToken.pause`: admin role required, and `Pausable._pause` itself
requires the token not to be paused yet. -/
def pause (t : TokenState) (caller : Nat) : Except Err TokenState :=
  if t.admin caller then
    if t.paused then .error .tokenPaused
    else .ok { t with paused := true }
  else .error .notTokenAdmin

/-- `GameToken.unpause`: admin role required, and `Pausable._unpause`
requires the token to be paused. -/
def unpause (t : TokenState) (caller : Nat) : Except Err TokenState :=
  if t.admin caller then
    if t.paused then .ok { t with paused := false }
    else .error .tokenNotPaused
  else .error .notTokenAdmin

/-- `GameToken.mint`: minter role, `whenNotPaused`, non-zero recipient, then
credit the amount. -/
def mint (t : TokenState) (caller dst amount : Nat) : Except Err TokenState :=
  if t.minter caller then
    if t.paused then .error .tokenPaused
    else if dst = 0 then .error .mintToZero
    else .ok { t with balances := updB t.balances dst (t.balances dst + amount) }
  else .error .notTokenMinter

/-- `GameToken.grantMinterRole`: admin role required, grants MINTER_ROLE. -/
def grantMinterRole (t : TokenState) (caller acct : Nat) :
    Except Err TokenState :=
  if t.admin caller then
    .ok { t with minter := fun x => if x = acct then true else t.minter x }
  else .error .notTokenAdmin

end GameToken

namespace PlayGame

open GameToken

abbrev Addr : Type := Nat
abbrev B32 : Type := Nat

/-- Match status constant, from `uint8 public constant CREATED = 0`. -/
def CREATED : Nat := 0

/-- Match status constant, from `uint8 public constant STAKED = 1`. -/
def STAKED : Nat := 1

/-- Match status constant, from `uint8 public constant SETTLED = 2`. -/
def SETTLED : Nat := 2

/-- Match status constant, from `uint8 public constant REFUNDED = 3`. -/
def REFUNDED : Nat := 3

/-- The `Match` struct of PlayGame.sol. -/
structure Match where
  id : B32
  p1 : Addr
  p2 : Addr
  stake : Nat
  status : Nat
  p1Staked : Bool
  p2Staked : Bool
  startTime : Nat
deriving DecidableEq

/-- The all-zero record a Solidity mapping returns for a key never written. -/
def emptyMatch : Match :=
  { id := 0, p1 := 0, p2 := 0, stake := 0, status := CREATED,
    p1Staked := false, p2Staked := false, startTime := 0 }

/-- Immutable deployment data of PlayGame: `owner` (the deployer, from
Ownable), `operator` and `timeout` from the constructor, and `self`, the
address of the deployed PlayGame contract itself — the account that holds
all escrowed tokens (`address(this)` in the source). -/
structure Config where
  owner : Addr
  operator : Addr
  timeout : Nat
  self : Addr
deriving DecidableEq

/-- Full mutable on-chain state: the `matches` mapping of PlayGame and the
storage of the GameToken contract. -/
structure EngineState where
  matchesOf : B32 → Match
  token : TokenState

/-- Pointwise update of the matches mapping. -/
def setMatch (M : B32 → Match) (k : B32) (m : Match) : B32 → Match :=
  fun x => if x = k then m else M x

/-- The record `createMatch` inserts. -/
def freshMatch (k : B32) (p1 p2 : Addr) (s : Nat) : Match :=
  { id := k, p1 := p1, p2 := p2, stake := s, status := CREATED,
    p1Staked := false, p2Staked := false, startTime := 0 }

/-- `createMatch` of PlayGame.sol: owner-only; requires a non-zero id, two
distinct non-zero players, a positive stake, and that the id is unused; then
inserts the CREATED match. -/
def createMatch (cfg : Config) (st : EngineState) (caller : Addr)
    (matchId : B32) (p1 p2 : Addr) (stake : Nat) : Except Err EngineState :=
  if caller ≠ cfg.owner then .error .notOwner
  else if matchId = 0 then .error .invalidMatchId
  else if p1 = 0 ∨ p2 = 0 then .error .invalidPlayers
  else if p1 = p2 then .error .playersMustDiffer
  else if stake = 0 then .error .invalidStake
  else if (st.matchesOf matchId).id ≠ 0 then .error .matchExists
  else .ok { st with matchesOf := setMatch st.matchesOf matchId
                       (freshMatch matchId p1 p2 stake) }

/-- The flag update inside `stake`: set the caller's staked flag, where the
caller is identified against `p1` first exactly as `isP1` is computed in the
source. -/
def stakedMark (m : Match) (caller : Addr) : Match :=
  if caller = m.p1 then { m with p1Staked := true }
  else { m with p2Staked := true }

/-- The conditional transition inside `stake`: once both players have staked,
move to STAKED and record the block timestamp as `startTime`. -/
def maybeStart (m : Match) (now : Nat) : Match :=
  if m.p1Staked ∧ m.p2Staked then { m with status := STAKED, startTime := now }
  else m

/-- `stake` of PlayGame.sol: requires an existing match in CREATED status and
that the caller is one of its players and has not staked yet; marks the
caller's staked flag, moves to STAKED with `startTime = now` once both flags
are set, then calls `gameToken.transferFrom(msg.sender, address(this),
stake)` — inside that call the token's `msg.sender` is the PlayGame contract,
so the spent allowance is the one the player granted to `cfg.self`.  A
failing transfer reverts the whole call, rolling the flag update back. -/
def stake (cfg : Config) (st : EngineState) (caller : Addr) (matchId : B32)
    (now : Nat) : Except Err EngineState :=
  let m := st.matchesOf matchId
  if m.id = 0 then .error .matchNotFound
  else if m.status ≠ CREATED then .error .matchNotCreated
  else if caller ≠ m.p1 ∧ caller ≠ m.p2 then .error .notAPlayer
  else if (if caller = m.p1 then m.p1Staked else m.p2Staked) then
    .error .alreadyStaked
  else
    match transferFrom st.token cfg.self caller cfg.self m.stake with
    | .error e => .error e
    | .ok t => .ok { matchesOf := setMatch st.matchesOf matchId
                       (maybeStart (stakedMark m caller) now), token := t }

/-- `commitResult` of PlayGame.sol: operator-only; requires an existing match
in STAKED status and a winner who is one of the players; moves to SETTLED and
pays `stake * 2` to the winner via `gameToken.transfer` (sent by the PlayGame
contract, so out of its pooled balance). -/
def commitResult (cfg : Config) (st : EngineState) (caller : Addr)
    (matchId : B32) (winner : Addr) : Except Err EngineState :=
  if caller ≠ cfg.operator then .error .notOperator
  else
    let m := st.matchesOf matchId
    if m.id = 0 then .error .matchNotFound
    else if m.status ≠ STAKED then .error .matchNotStaked
    else if winner ≠ m.p1 ∧ winner ≠ m.p2 then .error .invalidWinner
    else
      match transfer st.token cfg.self winner (m.stake * 2) with
      | .error e => .error e
      | .ok t => .ok { matchesOf := setMatch st.matchesOf matchId
                         { m with status := SETTLED }, token := t }

/-- The payout sequence inside `refund`: for each player whose staked flag is
set, in order `p1` then `p2`, transfer `stake` back from the PlayGame
contract to that player. -/
def refundTransfers (t : TokenState) (self : Addr) (m : Match) :
    Except Err TokenState :=
  match (if m.p1Staked then transfer t self m.p1 m.stake else .ok t) with
  | .error e => .error e
  | .ok t1 =>
    match (if m.p2Staked then transfer t1 self m.p2 m.stake else .ok t1) with
    | .error e => .error e
    | .ok t2 => .ok t2

/-- `refund` of PlayGame.sol: requires an existing match in STAKED status and
that the timeout has elapsed since `startTime`; moves to REFUNDED and returns
`stake` to each player whose staked flag is set. -/
def refund (cfg : Config) (st : EngineState) (matchId : B32) (now : Nat) :
    Except Err EngineState :=
  let m := st.matchesOf matchId
  if m.id = 0 then .error .matchNotFound
  else if m.status ≠ STAKED then .error .matchNotStaked
  else if now < m.startTime + cfg.timeout then .error .timeoutNotReached
  else
    match refundTransfers st.token cfg.self m with
    | .error e => .error e
    | .ok t2 => .ok { matchesOf := setMatch st.matchesOf matchId
                        { m with status := REFUNDED }, token := t2 }

/-- `getMatch` of PlayGame.sol: a plain mapping read, never failing; a
never-created id yields the all-zero record. -/
def getMatch (st : EngineState) (matchId : B32) : Match :=
  st.matchesOf matchId

/-- `canRefund` of PlayGame.sol: the match exists, is STAKED, and the timeout
has elapsed.  It reads no token state, in particular not the pause flag. -/
def canRefund (cfg : Config) (st : EngineState) (matchId : B32) (now : Nat) :
    Bool :=
  decide ((st.matchesOf matchId).id ≠ 0) &&
  decide ((st.matchesOf matchId).status = STAKED) &&
  decide ((st.matchesOf matchId).startTime + cfg.timeout ≤ now)

/-- External transactions against the two contracts, with the block timestamp
as an explicit argument where PlayGame reads `block.timestamp`. -/
inductive Op where
  | create (caller : Addr) (matchId : B32) (p1 p2 : Addr) (stake : Nat)
  | stakeCall (caller : Addr) (matchId : B32) (now : Nat)
  | commit (caller : Addr) (matchId : B32) (winner : Addr)
  | refundCall (matchId : B32) (now : Nat)
  | approveTok (caller spender amount : Nat)
  | transferTok (caller dst amount : Nat)
  | pauseTok (caller : Nat)
  | unpauseTok (caller : Nat)
  | mintTok (caller dst amount : Nat)
  | grantMinterTok (caller acct : Nat)

/-- Lift a token call to a transaction result: matches are untouched. -/
def tokStep (st : EngineState) (r : Except Err TokenState) :
    Except Err EngineState :=
  match r with
  | .error e => .error e
  | .ok t => .ok { st with token := t }

/-- Dispatch one transaction. -/
def step (cfg : Config) (st : EngineState) : Op → Except Err EngineState
  | .create c k p1 p2 s => createMatch cfg st c k p1 p2 s
  | .stakeCall c k now => stake cfg st c k now
  | .commit c k w => commitResult cfg st c k w
  | .refundCall k now => refund cfg st k now
  | .approveTok c sp a => tokStep st (approve st.token c sp a)
  | .transferTok c d a => tokStep st (transfer st.token c d a)
  | .pauseTok c => tokStep st (pause st.token c)
  | .unpauseTok c => tokStep st (unpause st.token c)
  | .mintTok c d a => tokStep st (mint st.token c d a)
  | .grantMinterTok c m => tokStep st (grantMinterRole st.token c m)

/-- Whether a transaction can be originated externally: the PlayGame contract
address cannot sign transactions, and its code never calls `approve` or
`transfer` on its own behalf, so no external transaction spends or authorises
the pool directly. -/
def callerOk (cfg : Config) : Op → Bool
  | .approveTok c _ _ => decide (c ≠ cfg.self)
  | .transferTok c _ _ => decide (c ≠ cfg.self)
  | _ => true

/-- A reverted transaction leaves the chain state unchanged. -/
def applyOp (cfg : Config) (st : EngineState) (op : Op) : EngineState :=
  match step cfg st op with
  | .ok st2 => st2
  | .error _ => st

/-- Run a sequence of transactions. -/
def run (cfg : Config) (st : EngineState) (ops : List Op) : EngineState :=
  ops.foldl (applyOp cfg) st

/-- Deployment state: no matches; the token fresh from its constructor —
balances `L` (standing for any pattern of pre-deployment minting), all
allowances zero as ERC20 initialises them, both roles held by the deployer,
not paused. -/
def initState (deployer : Addr) (L : Addr → Nat) : EngineState :=
  { matchesOf := fun _ => emptyMatch,
    token := { balances := L,
               allowances := fun _ _ => 0,
               minter := fun a => decide (a = deployer),
               admin := fun a => decide (a = deployer),
               paused := false } }

/-- A state the deployed contracts can actually be in: reached from some
deployment by externally originated transactions. -/
def Reachable (cfg : Config) (st : EngineState) : Prop :=
  ∃ d L ops, (∀ op ∈ ops, callerOk cfg op = true) ∧
    st = run cfg (initState d L) ops

/-- How many of the two staked flags are set. -/
def stakedCount (m : Match) : Nat :=
  (if m.p1Staked then 1 else 0) + (if m.p2Staked then 1 else 0)

/-- The escrow a match is holding inside the pooled contract balance:
`stake` per currently staked player while the match is live, and nothing once
it has been settled or refunded (settlement pays it to the winner, refund
returns it). -/
def custodyHeld (m : Match) : Nat :=
  if m.status = CREATED ∨ m.status = STAKED then m.stake * stakedCount m
  else 0

/-- Per-match structural invariant: an all-zero id means the slot was never
written; a written slot is keyed by its own id, has a positive stake and two
distinct non-zero players; a CREATED match has no start time; and a match
that is past CREATED has both staked flags set. -/
def MatchCore (k : B32) (m : Match) : Prop :=
  (m.id = 0 → m = emptyMatch) ∧
  (m.id ≠ 0 → m.id = k ∧ 0 < m.stake ∧ m.p1 ≠ 0 ∧ m.p2 ≠ 0 ∧ m.p1 ≠ m.p2) ∧
  (m.status = CREATED → m.startTime = 0) ∧
  (¬(m.p1Staked = true ∧ m.p2Staked = true) → m.status = CREATED)

/-- A player whose staked flag is set cannot be the PlayGame contract itself:
its allowance to itself is always zero, so its stake call could never have
paid. -/
def MatchSelf (cfg : Config) (m : Match) : Prop :=
  (m.p1Staked = true → m.p1 ≠ cfg.self) ∧
  (m.p2Staked = true → m.p2 ≠ cfg.self)

/-- The structural invariant alone, preserved by every transaction. -/
def CoreInv (st : EngineState) : Prop :=
  ∀ k, MatchCore k (st.matchesOf k)

/-- The pooled balance of the PlayGame contract covers the escrow of all
matches together: some finite set carries every match with live custody, and
the custody sum is bounded by the pool. -/
def escrowOk (cfg : Config) (st : EngineState) : Prop :=
  ∃ s : Finset B32, (∀ k, k ∉ s → custodyHeld (st.matchesOf k) = 0) ∧
    ∑ k ∈ s, custodyHeld (st.matchesOf k) ≤ st.token.balances cfg.self

/-- Global invariant of reachable states: structure, no staked contract-self
players, the PlayGame contract has granted no allowance, and the pool covers
the escrow. -/
def Inv (cfg : Config) (st : EngineState) : Prop :=
  CoreInv st ∧
  (∀ k, MatchSelf cfg (st.matchesOf k)) ∧
  (∀ sp, st.token.allowances cfg.self sp = 0) ∧
  escrowOk cfg st

/-- Status change a single transaction may cause on one match. -/
def StatusStep (a b : Nat) : Prop :=
  a = b ∨ (a = CREATED ∧ b = STAKED) ∨
    (a = STAKED ∧ (b = SETTLED ∨ b = REFUNDED))

/-- Status change a sequence of transactions may cause on one match:
forward moves along CREATED → STAKED → (SETTLED or REFUNDED) only. -/
def StatusReach (a b : Nat) : Prop :=
  a = b ∨ (a = CREATED ∧ (b = STAKED ∨ b = SETTLED ∨ b = REFUNDED)) ∨
    (a = STAKED ∧ (b = SETTLED ∨ b = REFUNDED))

/-- Whether some transaction in `ops`, run from `st`, is a `createMatch`
call for id `k` that succeeds at its point in the sequence. -/
def createdIn (cfg : Config) : EngineState → List Op → B32 → Bool
  | _, [], _ => false
  | st, op :: rest, k =>
    (match op with
     | .create _ k2 _ _ _ =>
         decide (k2 = k) && (step cfg st op).toBool
     | _ => false) || createdIn cfg (applyOp cfg st op) rest k

end PlayGame

namespace PlayGame

/-- A concrete deployment used to exercise the theorems: owner 100,
operator 200, timeout 50 seconds, PlayGame contract address 50. -/
def cfgEx : Config := { owner := 100, operator := 200, timeout := 50, self := 50 }

/-- The GameToken deployer (holder of the admin and minter roles). -/
def deployerEx : Addr := 300

/-- Initial player balances for the examples. -/
def balEx : Addr → Nat := fun _ => 1000

/-- Create match 7 between players 1 and 2 at stake 10; both players approve
the PlayGame contract and stake at time 3. -/
def opsStakedEx : List Op :=
  [Op.create 100 7 1 2 10, Op.approveTok 1 50 10, Op.approveTok 2 50 10,
   Op.stakeCall 1 7 3, Op.stakeCall 2 7 3]

/-- The state with match 7 fully staked. -/
def stStakedEx : EngineState := run cfgEx (initState deployerEx balEx) opsStakedEx

/-- The fully staked match 7, followed by an emergency pause of the token. -/
def opsPausedEx : List Op := opsStakedEx ++ [Op.pauseTok 300]

/-- The state with match 7 fully staked and the token paused. -/
def stPausedEx : EngineState := run cfgEx (initState deployerEx balEx) opsPausedEx

/-- Create match 7, but only player 1 approves and stakes. -/
def opsOneEx : List Op :=
  [Op.create 100 7 1 2 10, Op.approveTok 1 50 10, Op.stakeCall 1 7 3]

/-- The state with match 7 half staked. -/
def stOneEx : EngineState := run cfgEx (initState deployerEx balEx) opsOneEx

/-- Create match 7, both players approve, but only player 1 has staked. -/
def opsPreEx : List Op :=
  [Op.create 100 7 1 2 10, Op.approveTok 1 50 10, Op.approveTok 2 50 10,
   Op.stakeCall 1 7 3]

/-- The state with both allowances granted and match 7 half staked. -/
def stPreEx : EngineState := run cfgEx (initState deployerEx balEx) opsPreEx

/-- Match 7 created, but player 1 granted no allowance to PlayGame. -/
def stNoApproveEx : EngineState :=
  run cfgEx (initState deployerEx balEx) [Op.create 100 7 1 2 10]

/-- The fully staked match 7, settled by the operator in favour of player 1. -/
def opsSettledEx : List Op := opsStakedEx ++ [Op.commit 200 7 1]

end PlayGame

namespace Leaderboard

/-- Event types logged by the indexer of leaderboard.js. -/
inductive EvType where
  | purchase
  | matchCreated
  | stakedEv
  | settledEv
  | refundedEv
deriving DecidableEq

/-- A row of the `events` table, as inserted by `logEvent`.  Transaction
hashes are modelled as numbers. -/
structure EventRow where
  eventType : EvType
  address : Nat
  amount : Nat
  matchId : Option Nat
  blockNumber : Nat
  txHash : Nat
deriving DecidableEq

/-- A row of the `players` table.  `total_gt_won` is stored as text in the
database but always holds a non-negative integer amount, so it is modelled
as a natural number; the DECIMAL cast the ranking query applies to it is
modelled separately by `castDecimal`. -/
structure PlayerRow where
  address : Nat
  wins : Nat
  totalWon : Nat
  matchesPlayed : Nat
deriving DecidableEq

/-- The indexer database.  Both tables are kept in rowid (insertion) order. -/
structure DB where
  events : List EventRow
  players : List PlayerRow
deriving DecidableEq

/-- `logEvent` of leaderboard.js: append one row to the `events` table. -/
def logEvent (db : DB) (t : EvType) (a amt : Nat) (mid : Option Nat)
    (bn tx : Nat) : DB :=
  { db with events := db.events ++
      [{ eventType := t, address := a, amount := amt, matchId := mid,
         blockNumber := bn, txHash := tx }] }

/-- Round a natural number to the nearest IEEE-754 double (53-bit mantissa,
ties to even), as SQLite does when a numeric text does not fit a 64-bit
integer or an integer is converted for floating-point arithmetic.  Values
below 2^53 are exact. -/
def doubleRound (n : Nat) : Nat :=
  if n < 2 ^ 53 then n
  else
    let e := n.log2 - 52
    let u := n / 2 ^ e
    let r := n % 2 ^ e
    if 2 ^ (e - 1) < r ∨ (r = 2 ^ (e - 1) ∧ u % 2 = 1) then (u + 1) * 2 ^ e
    else u * 2 ^ e

/-- The value `CAST(total_gt_won AS DECIMAL)` compares by: SQLite's NUMERIC
affinity keeps integer texts up to the int64 range exact and converts larger
ones (ordinary 18-decimal wei totals) to 8-byte doubles, collapsing totals
that differ below double precision. -/
def castDecimal (n : Nat) : Nat :=
  if n ≤ 2 ^ 63 - 1 then n else doubleRound n

/-- The addition
`CAST(CAST(total_gt_won AS DECIMAL) + CAST(? AS DECIMAL) AS TEXT)` of the
upsert: exact 64-bit integer addition while both operands and the sum fit
int64; otherwise SQLite falls back to floating point, converting each operand
to a double and rounding the sum to a double. -/
def addDecimal (a b : Nat) : Nat :=
  if a ≤ 2 ^ 63 - 1 ∧ b ≤ 2 ^ 63 - 1 ∧ a + b ≤ 2 ^ 63 - 1 then a + b
  else doubleRound (doubleRound a + doubleRound b)

/-- `updatePlayerStats` of leaderboard.js: the upsert
`INSERT ... ON CONFLICT(address) DO UPDATE SET wins = wins + ...` — update in
place when the address exists (accumulating `total_gt_won` through the
DECIMAL casts of the UPDATE clause), append a fresh row otherwise. -/
def updatePlayerStats (rows : List PlayerRow) (a w g mp : Nat) :
    List PlayerRow :=
  match rows with
  | [] => [{ address := a, wins := w, totalWon := g, matchesPlayed := mp }]
  | r :: rs =>
    if r.address = a then
      ({ r with
          wins := r.wins + w,
          totalWon := addDecimal r.totalWon g,
          matchesPlayed := r.matchesPlayed + mp }) :: rs
    else r :: updatePlayerStats rs a w g mp

/-- `handleSettledEvent` of leaderboard.js: log the raw event, then credit
the winner with one win, the payout amount and one match played.  There is no
lookup of any previously applied event before the accumulation. -/
def handleSettledEvent (db : DB) (matchId winner amount bn tx : Nat) : DB :=
  let db1 := logEvent db .settledEv winner amount (some matchId) bn tx
  { db1 with players := updatePlayerStats db1.players winner 1 amount 1 }

/-- `getPlayerStats` of leaderboard.js: `SELECT ... WHERE address = ?`. -/
def getPlayerStats (db : DB) (a : Nat) : Option PlayerRow :=
  db.players.find? (fun r => r.address == a)

/-- The sort key of the leaderboard query,
`ORDER BY CAST(total_gt_won AS DECIMAL) DESC, wins DESC`: row `a` may come
before row `b` when `a` has the larger cast total, or an equal cast total and
at least as many wins.  The query has no third sort key. -/
def ordRows (a b : PlayerRow) : Bool :=
  decide (castDecimal b.totalWon < castDecimal a.totalWon) ||
    (decide (castDecimal a.totalWon = castDecimal b.totalWon) &&
      decide (b.wins ≤ a.wins))

/-- `ordRows` as a relation, for use with the sorting library. -/
def rowLE (a b : PlayerRow) : Prop := ordRows a b = true

instance rowLE_dec : DecidableRel rowLE := fun a b => by
  unfold rowLE
  infer_instance

instance rowLE_total : IsTotal PlayerRow rowLE := ⟨by
  intro a b
  simp only [rowLE, ordRows, Bool.or_eq_true, Bool.and_eq_true,
    decide_eq_true_eq]
  omega⟩

instance rowLE_trans : IsTrans PlayerRow rowLE := ⟨by
  intro a b c
  simp only [rowLE, ordRows, Bool.or_eq_true, Bool.and_eq_true,
    decide_eq_true_eq]
  omega⟩

/-- `getLeaderboard` of leaderboard.js: sort the `players` table by the two
keys of the ORDER BY clause (a stable sort models SQLite's scan over the
rowid-ordered table) and apply `LIMIT`. -/
def getLeaderboard (db : DB) (limit : Nat) : List PlayerRow :=
  (List.insertionSort rowLE db.players).take limit

/-- Modelled from the spec: the ordering the specification claims for the
leaderboard query — `totalWon` descending, ties broken by `wins` descending,
remaining ties broken by address (read here as ascending).  Stated only to
compare the implemented query against the spec words. -/
def specOrdAsc (a b : PlayerRow) : Bool :=
  decide (b.totalWon < a.totalWon) ||
    (decide (a.totalWon = b.totalWon) &&
      (decide (b.wins < a.wins) ||
        (decide (a.wins = b.wins) && decide (a.address ≤ b.address))))

/-- Modelled from the spec: as `specOrdAsc` but with the address tie broken
descending, to cover either reading of the spec tie-break direction. -/
def specOrdDesc (a b : PlayerRow) : Bool :=
  decide (b.totalWon < a.totalWon) ||
    (decide (a.totalWon = b.totalWon) &&
      (decide (b.wins < a.wins) ||
        (decide (a.wins = b.wins) && decide (b.address ≤ a.address))))

/-- A players table with three rows fully tied on `totalWon` and `wins`,
inserted in address order 5, 3, 4. -/
def dbEx7 : DB :=
  { events := [],
    players := [{ address := 5, wins := 0, totalWon := 100, matchesPlayed := 1 },
                { address := 3, wins := 0, totalWon := 100, matchesPlayed := 1 },
                { address := 4, wins := 0, totalWon := 100, matchesPlayed := 1 }] }

end Leaderboard

/-! Basic lemmas about map updates. -/

namespace GameToken

theorem updB_eq (f : Nat → Nat) (k v : Nat) : updB f k v k = v := by
  simp [updB]

theorem updB_ne (f : Nat → Nat) (k x v : Nat) (h : x ≠ k) :
    updB f k v x = f x := by
  simp [updB, h]

theorem updA_ne (f : Nat → Nat → Nat) (o s v x y : Nat) (h : x ≠ o) :
    updA f o s v x y = f x y := by
  simp [updA, h]

/-! Success characterizations of the token operations. -/

theorem transferCore_ok (t t2 : TokenState) (sender dst amount : Nat)
    (h : transferCore t sender dst amount = .ok t2) :
    sender ≠ 0 ∧ dst ≠ 0 ∧ amount ≤ t.balances sender ∧
    (sender ≠ dst → t2.balances sender = t.balances sender - amount ∧
      t2.balances dst = t.balances dst + amount) ∧
    (∀ x, x ≠ sender → x ≠ dst → t2.balances x = t.balances x) ∧
    t2.allowances = t.allowances ∧ t2.paused = t.paused ∧
    t2.minter = t.minter ∧ t2.admin = t.admin := by
  unfold transferCore at h
  split_ifs at h with h1 h2 h3
  injection h with h4
  subst h4
  refine ⟨h1, h2, Nat.le_of_not_lt h3, ?_, ?_, rfl, rfl, rfl, rfl⟩
  · intro hne
    constructor
    · simp only []
      rw [updB_ne _ _ _ _ hne, updB_eq]
    · simp only []
      rw [updB_eq, updB_ne _ _ _ _ (Ne.symm hne)]
  · intro x hxs hxd
    simp only []
    rw [updB_ne _ _ _ _ hxd, updB_ne _ _ _ _ hxs]

theorem transferCore_isOk (t : TokenState) (sender dst amount : Nat)
    (h1 : sender ≠ 0) (h2 : dst ≠ 0) (h3 : amount ≤ t.balances sender) :
    ∃ t2, transferCore t sender dst amount = .ok t2 := by
  unfold transferCore
  rw [if_neg h1, if_neg h2, if_neg (Nat.not_lt.mpr h3)]
  exact ⟨_, rfl⟩

theorem transfer_ok (t t2 : TokenState) (caller dst amount : Nat)
    (h : transfer t caller dst amount = .ok t2) :
    t.paused = false ∧ transferCore t caller dst amount = .ok t2 := by
  unfold transfer at h
  split_ifs at h with h1
  exact ⟨by simpa using h1, h⟩

theorem transfer_isOk (t : TokenState) (caller dst amount : Nat)
    (hp : t.paused = false) (h1 : caller ≠ 0) (h2 : dst ≠ 0)
    (h3 : amount ≤ t.balances caller) :
    ∃ t2, transfer t caller dst amount = .ok t2 := by
  unfold transfer
  rw [if_neg (by simp [hp])]
  exact transferCore_isOk t caller dst amount h1 h2 h3

theorem spendAllowance_ok (t t1 : TokenState) (o sp a : Nat)
    (h : spendAllowance t o sp a = .ok t1) :
    (t.allowances o sp = MAXUINT ∨ a ≤ t.allowances o sp) ∧
    t1.balances = t.balances ∧ t1.paused = t.paused ∧
    t1.minter = t.minter ∧ t1.admin = t.admin ∧
    (∀ x y, x ≠ o → t1.allowances x y = t.allowances x y) := by
  unfold spendAllowance at h
  split_ifs at h with h1 h2 h3 h4
  · injection h with h5
    subst h5
    exact ⟨Or.inl h1, rfl, rfl, rfl, rfl, fun _ _ _ => rfl⟩
  · injection h with h5
    subst h5
    refine ⟨Or.inr (Nat.le_of_not_lt h2), rfl, rfl, rfl, rfl, ?_⟩
    intro x y hx
    simp only []
    rw [updA_ne _ _ _ _ _ _ hx]

theorem transferFrom_ok (t t2 : TokenState) (caller fromAcct dst amount : Nat)
    (h : transferFrom t caller fromAcct dst amount = .ok t2) :
    t.paused = false ∧ fromAcct ≠ 0 ∧ dst ≠ 0 ∧
    (t.allowances fromAcct caller = MAXUINT ∨
      amount ≤ t.allowances fromAcct caller) ∧
    amount ≤ t.balances fromAcct ∧
    (fromAcct ≠ dst → t2.balances fromAcct = t.balances fromAcct - amount ∧
      t2.balances dst = t.balances dst + amount) ∧
    (∀ x, x ≠ fromAcct → x ≠ dst → t2.balances x = t.balances x) ∧
    (∀ x y, x ≠ fromAcct → t2.allowances x y = t.allowances x y) ∧
    t2.paused = t.paused ∧ t2.minter = t.minter ∧ t2.admin = t.admin := by
  unfold transferFrom at h
  split_ifs at h with h1
  rcases hS : spendAllowance t fromAcct caller amount with e | t1 <;>
    rw [hS] at h
  · simp at h
  obtain ⟨hal, hbal1, hp1, hm1, ha1, hrow⟩ :=
    spendAllowance_ok t t1 fromAcct caller amount hS
  obtain ⟨hf0, hd0, hle, hmove, hoth, hallow2, hp2, hm2, ha2⟩ :=
    transferCore_ok t1 t2 fromAcct dst amount h
  rw [hbal1] at hle hmove hoth
  refine ⟨by simpa using h1, hf0, hd0, hal, hle, hmove, hoth, ?_,
    hp2.trans hp1, hm2.trans hm1, ha2.trans ha1⟩
  intro x y hx
  rw [hallow2, hrow x y hx]

theorem approve_ok (t t2 : TokenState) (caller sp a : Nat)
    (h : approve t caller sp a = .ok t2) :
    caller ≠ 0 ∧ sp ≠ 0 ∧ t2.balances = t.balances ∧
    t2.paused = t.paused ∧ t2.minter = t.minter ∧ t2.admin = t.admin ∧
    (∀ x y, x ≠ caller → t2.allowances x y = t.allowances x y) := by
  unfold approve at h
  split_ifs at h with h1 h2
  injection h with h3
  subst h3
  refine ⟨h1, h2, rfl, rfl, rfl, rfl, ?_⟩
  intro x y hx
  simp only []
  rw [updA_ne _ _ _ _ _ _ hx]

theorem pause_ok (t t2 : TokenState) (caller : Nat)
    (h : pause t caller = .ok t2) :
    t2.balances = t.balances ∧ t2.allowances = t.allowances ∧
    t2.minter = t.minter ∧ t2.admin = t.admin ∧ t2.paused = true := by
  unfold pause at h
  split_ifs at h with h1 h2
  injection h with h3
  subst h3
  exact ⟨rfl, rfl, rfl, rfl, rfl⟩

theorem unpause_ok (t t2 : TokenState) (caller : Nat)
    (h : unpause t caller = .ok t2) :
    t2.balances = t.balances ∧ t2.allowances = t.allowances ∧
    t2.minter = t.minter ∧ t2.admin = t.admin ∧ t2.paused = false := by
  unfold unpause at h
  split_ifs at h with h1 h2
  injection h with h3
  subst h3
  exact ⟨rfl, rfl, rfl, rfl, rfl⟩

theorem mint_ok (t t2 : TokenState) (caller dst amount : Nat)
    (h : mint t caller dst amount = .ok t2) :
    (∀ x, t.balances x ≤ t2.balances x) ∧ t2.allowances = t.allowances ∧
    t2.minter = t.minter ∧ t2.admin = t.admin ∧ t2.paused = t.paused := by
  unfold mint at h
  split_ifs at h with h1 h2 h3
  injection h with h4
  subst h4
  refine ⟨?_, rfl, rfl, rfl, rfl⟩
  intro x
  by_cases hx : x = dst
  · subst hx
    simp only []
    rw [updB_eq]
    omega
  · simp only []
    rw [updB_ne _ _ _ _ hx]

theorem grantMinterRole_ok (t t2 : TokenState) (caller acct : Nat)
    (h : grantMinterRole t caller acct = .ok t2) :
    t2.balances = t.balances ∧ t2.allowances = t.allowances ∧
    t2.admin = t.admin ∧ t2.paused = t.paused := by
  unfold grantMinterRole at h
  split_ifs at h with h1
  injection h with h3
  subst h3
  exact ⟨rfl, rfl, rfl, rfl⟩

end GameToken

namespace PlayGame

open GameToken

theorem setMatch_eq (M : B32 → Match) (k : B32) (m : Match) :
    setMatch M k m k = m := by
  simp [setMatch]

theorem setMatch_ne (M : B32 → Match) (k x : B32) (m : Match) (h : x ≠ k) :
    setMatch M k m x = M x := by
  simp [setMatch, h]

/-! Success characterizations of the four PlayGame operations. -/

theorem createMatch_ok_iff (cfg : Config) (st : EngineState) (c : Addr)
    (k : B32) (p1 p2 : Addr) (s : Nat) (st2 : EngineState) :
    createMatch cfg st c k p1 p2 s = .ok st2 ↔
      c = cfg.owner ∧ k ≠ 0 ∧ p1 ≠ 0 ∧ p2 ≠ 0 ∧ p1 ≠ p2 ∧ s ≠ 0 ∧
      (st.matchesOf k).id = 0 ∧
      st2 = { st with matchesOf := setMatch st.matchesOf k (freshMatch k p1 p2 s) } := by
  unfold createMatch freshMatch
  split_ifs with h1 h2 h3 h4 h5 h6 <;>
    simp_all [not_or, eq_comm] <;> tauto

theorem stake_ok_elim (cfg : Config) (st : EngineState) (c : Addr) (k : B32)
    (now : Nat) (st2 : EngineState) (hok : stake cfg st c k now = .ok st2) :
    (st.matchesOf k).id ≠ 0 ∧ (st.matchesOf k).status = CREATED ∧
    (c = (st.matchesOf k).p1 ∨ c = (st.matchesOf k).p2) ∧
    (if c = (st.matchesOf k).p1 then (st.matchesOf k).p1Staked
     else (st.matchesOf k).p2Staked) = false ∧
    ∃ t, transferFrom st.token cfg.self c cfg.self (st.matchesOf k).stake = .ok t ∧
      st2 = { matchesOf := setMatch st.matchesOf k
                (maybeStart (stakedMark (st.matchesOf k) c) now),
              token := t } := by
  simp only [stake] at hok
  split_ifs at hok with h1 h2 h3 h4 h5 h6
  all_goals {
    rcases hT : transferFrom st.token cfg.self c cfg.self
        (st.matchesOf k).stake with e | t <;> rw [hT] at hok <;> simp at hok
    refine ⟨h1, by simpa using h2, by tauto, by simp_all, t, rfl, hok.symm⟩ }

theorem stake_ok_intro (cfg : Config) (st : EngineState) (c : Addr) (k : B32)
    (now : Nat) (t : TokenState)
    (h1 : (st.matchesOf k).id ≠ 0) (h2 : (st.matchesOf k).status = CREATED)
    (h3 : c = (st.matchesOf k).p1 ∨ c = (st.matchesOf k).p2)
    (h4 : (if c = (st.matchesOf k).p1 then (st.matchesOf k).p1Staked
           else (st.matchesOf k).p2Staked) = false)
    (hT : transferFrom st.token cfg.self c cfg.self (st.matchesOf k).stake = .ok t) :
    stake cfg st c k now = .ok
      { matchesOf := setMatch st.matchesOf k
          (maybeStart (stakedMark (st.matchesOf k) c) now),
        token := t } := by
  unfold stake
  rw [if_neg h1, if_neg (by simp [h2]), if_neg (by tauto),
    if_neg (by simp [h4]), hT]

theorem commitResult_ok_elim (cfg : Config) (st : EngineState) (c : Addr)
    (k : B32) (w : Addr) (st2 : EngineState)
    (hok : commitResult cfg st c k w = .ok st2) :
    c = cfg.operator ∧ (st.matchesOf k).id ≠ 0 ∧
    (st.matchesOf k).status = STAKED ∧
    (w = (st.matchesOf k).p1 ∨ w = (st.matchesOf k).p2) ∧
    ∃ t, transfer st.token cfg.self w ((st.matchesOf k).stake * 2) = .ok t ∧
      st2 = { matchesOf := setMatch st.matchesOf k
                { st.matchesOf k with status := SETTLED }, token := t } := by
  simp only [commitResult] at hok
  split_ifs at hok with h1 h2 h3 h4
  all_goals {
    rcases hT : transfer st.token cfg.self w
        ((st.matchesOf k).stake * 2) with e | t <;> rw [hT] at hok <;>
      simp at hok
    refine ⟨by tauto, h2, by simpa using h3, by tauto, t, rfl, hok.symm⟩ }

theorem commitResult_ok_intro (cfg : Config) (st : EngineState) (k : B32)
    (w : Addr) (t : TokenState)
    (h2 : (st.matchesOf k).id ≠ 0) (h3 : (st.matchesOf k).status = STAKED)
    (h4 : w = (st.matchesOf k).p1 ∨ w = (st.matchesOf k).p2)
    (hT : transfer st.token cfg.self w ((st.matchesOf k).stake * 2) = .ok t) :
    commitResult cfg st cfg.operator k w = .ok
      { matchesOf := setMatch st.matchesOf k
          { st.matchesOf k with status := SETTLED }, token := t } := by
  simp only [commitResult]
  rw [if_neg (by simp), if_neg h2, if_neg (by simp [h3]),
    if_neg (by tauto), hT]

theorem refund_ok_elim (cfg : Config) (st : EngineState) (k : B32) (now : Nat)
    (st2 : EngineState) (hok : refund cfg st k now = .ok st2) :
    (st.matchesOf k).id ≠ 0 ∧ (st.matchesOf k).status = STAKED ∧
    (st.matchesOf k).startTime + cfg.timeout ≤ now ∧
    ∃ t2, refundTransfers st.token cfg.self (st.matchesOf k) = .ok t2 ∧
      st2 = { matchesOf := setMatch st.matchesOf k
                { st.matchesOf k with status := REFUNDED }, token := t2 } := by
  simp only [refund] at hok
  split_ifs at hok with h1 h2 h3
  rcases hT : refundTransfers st.token cfg.self (st.matchesOf k) with e | t2 <;>
    rw [hT] at hok <;> simp at hok
  exact ⟨h1, by simpa using h2, by omega, t2, rfl, hok.symm⟩

theorem refund_ok_intro (cfg : Config) (st : EngineState) (k : B32)
    (now : Nat) (t2 : TokenState)
    (h1 : (st.matchesOf k).id ≠ 0) (h2 : (st.matchesOf k).status = STAKED)
    (h3 : (st.matchesOf k).startTime + cfg.timeout ≤ now)
    (hT : refundTransfers st.token cfg.self (st.matchesOf k) = .ok t2) :
    refund cfg st k now = .ok
      { matchesOf := setMatch st.matchesOf k
          { st.matchesOf k with status := REFUNDED }, token := t2 } := by
  simp only [refund]
  rw [if_neg h1, if_neg (by simp [h2]), if_neg (by omega), hT]

/-- When both players staked, the players are distinct, non-zero and distinct
from the contract, the token is not paused and the pool covers twice the
stake, the refund payouts succeed and move exactly one stake to each player
out of the pool. -/
theorem refundTransfers_both (t : TokenState) (self : Addr) (m : Match)
    (hp1 : m.p1Staked = true) (hp2 : m.p2Staked = true)
    (hp12 : m.p1 ≠ m.p2) (h10 : m.p1 ≠ 0) (h20 : m.p2 ≠ 0)
    (h1s : m.p1 ≠ self) (h2s : m.p2 ≠ self) (hs0 : self ≠ 0)
    (hpause : t.paused = false)
    (hbal : m.stake * 2 ≤ t.balances self) :
    ∃ t2, refundTransfers t self m = .ok t2 ∧
      t2.balances m.p1 = t.balances m.p1 + m.stake ∧
      t2.balances m.p2 = t.balances m.p2 + m.stake ∧
      t2.balances self = t.balances self - m.stake * 2 ∧
      (∀ x, x ≠ m.p1 → x ≠ m.p2 → x ≠ self → t2.balances x = t.balances x) ∧
      t2.allowances = t.allowances ∧ t2.paused = t.paused ∧
      t2.minter = t.minter ∧ t2.admin = t.admin := by
  obtain ⟨t1, hT1⟩ := transfer_isOk t self m.p1 m.stake hpause hs0 h10 (by omega)
  obtain ⟨hpf1, hC1⟩ := transfer_ok t t1 self m.p1 m.stake hT1
  obtain ⟨-, -, hle1, hmv1, hoth1, hal1, hp1f, hm1, ha1⟩ :=
    transferCore_ok t t1 self m.p1 m.stake hC1
  obtain ⟨hs1, hb1⟩ := hmv1 (Ne.symm h1s)
  have hself1 : t1.balances self = t.balances self - m.stake := hs1
  obtain ⟨t2, hT2⟩ := transfer_isOk t1 self m.p2 m.stake
    (hp1f.trans hpause) hs0 h20 (by rw [hself1]; omega)
  obtain ⟨hpf2, hC2⟩ := transfer_ok t1 t2 self m.p2 m.stake hT2
  obtain ⟨-, -, hle2, hmv2, hoth2, hal2, hp2f, hm2, ha2⟩ :=
    transferCore_ok t1 t2 self m.p2 m.stake hC2
  obtain ⟨hs2, hb2⟩ := hmv2 (Ne.symm h2s)
  refine ⟨t2, ?_, ?_, ?_, ?_, ?_, hal2.trans hal1, hp2f.trans hp1f,
    hm2.trans hm1, ha2.trans ha1⟩
  · simp only [refundTransfers, hp1, hp2, if_true, hT1, hT2]
  · rw [hoth2 m.p1 h1s hp12, hb1]
  · rw [hb2, hoth1 m.p2 h2s (Ne.symm hp12)]
  · rw [hs2, hself1]
    omega
  · intro x hx1 hx2 hxs
    rw [hoth2 x hxs hx2, hoth1 x hxs hx1]

end PlayGame

namespace PlayGame

open GameToken

/-! Escrow accounting machinery. -/

/-- One transaction that changes the custody of at most one match and moves
the pool balance by at least the matching amount preserves escrow
coverage. -/
theorem escrow_step (cfg : Config) (st st2 : EngineState) (k0 : B32)
    (hmatch : ∀ k, k ≠ k0 → st2.matchesOf k = st.matchesOf k)
    (hdelta : custodyHeld (st2.matchesOf k0) + st.token.balances cfg.self ≤
      custodyHeld (st.matchesOf k0) + st2.token.balances cfg.self)
    (hesc : escrowOk cfg st) : escrowOk cfg st2 := by
  obtain ⟨s, hsupp, hsum⟩ := hesc
  refine ⟨insert k0 s, ?_, ?_⟩
  · intro k hk
    rw [hmatch k (fun heq => hk (heq ▸ Finset.mem_insert_self k0 s))]
    exact hsupp k (fun hks => hk (Finset.mem_insert_of_mem hks))
  · by_cases hk0 : k0 ∈ s
    · rw [Finset.insert_eq_self.mpr hk0]
      have he2 : ∑ k ∈ s.erase k0, custodyHeld (st2.matchesOf k) =
          ∑ k ∈ s.erase k0, custodyHeld (st.matchesOf k) := by
        apply Finset.sum_congr rfl
        intro k hk
        rw [hmatch k (Finset.ne_of_mem_erase hk)]
      have h2 : custodyHeld (st2.matchesOf k0) +
          ∑ k ∈ s.erase k0, custodyHeld (st2.matchesOf k) =
          ∑ k ∈ s, custodyHeld (st2.matchesOf k) :=
        Finset.add_sum_erase s (fun k => custodyHeld (st2.matchesOf k)) hk0
      have h1 : custodyHeld (st.matchesOf k0) +
          ∑ k ∈ s.erase k0, custodyHeld (st.matchesOf k) =
          ∑ k ∈ s, custodyHeld (st.matchesOf k) :=
        Finset.add_sum_erase s (fun k => custodyHeld (st.matchesOf k)) hk0
      rw [he2] at h2
      omega
    · rw [Finset.sum_insert hk0]
      have he2 : ∑ k ∈ s, custodyHeld (st2.matchesOf k) =
          ∑ k ∈ s, custodyHeld (st.matchesOf k) := by
        apply Finset.sum_congr rfl
        intro k hk
        exact congrArg custodyHeld (hmatch k (fun heq => hk0 (heq ▸ hk)))
      have h0 : custodyHeld (st.matchesOf k0) = 0 := hsupp k0 hk0
      omega

/-- The pool covers each single match custody. -/
theorem escrow_bound (cfg : Config) (st : EngineState)
    (hesc : escrowOk cfg st) (k : B32) :
    custodyHeld (st.matchesOf k) ≤ st.token.balances cfg.self := by
  obtain ⟨s, hsupp, hsum⟩ := hesc
  by_cases hk : k ∈ s
  · exact le_trans (Finset.single_le_sum
      (f := fun k => custodyHeld (st.matchesOf k))
      (fun i _ => Nat.zero_le _) hk) hsum
  · rw [hsupp k hk]
    exact Nat.zero_le _

/-! Structural helper lemmas. -/

theorem stakedMark_p1 (m : Match) (c : Addr) (h : c = m.p1) :
    stakedMark m c = { m with p1Staked := true } := by
  simp [stakedMark, h]

theorem stakedMark_p2 (m : Match) (c : Addr) (h : ¬c = m.p1) :
    stakedMark m c = { m with p2Staked := true } := by
  simp [stakedMark, h]

theorem maybeStart_both (m : Match) (now : Nat)
    (h : m.p1Staked = true ∧ m.p2Staked = true) :
    maybeStart m now = { m with status := STAKED, startTime := now } := by
  simp [maybeStart, h]

theorem maybeStart_not (m : Match) (now : Nat)
    (h : ¬(m.p1Staked = true ∧ m.p2Staked = true)) :
    maybeStart m now = m := by
  simp only [maybeStart, if_neg h]

theorem emptyMatch_custodyHeld : custodyHeld emptyMatch = 0 := by
  simp [custodyHeld, emptyMatch, stakedCount]

/-- Case analysis of the match record written by a successful `stake` call,
given that the caller had not staked yet. -/
theorem stake_newMatch (m : Match) (c : Addr) (now : Nat)
    (hflag : (if c = m.p1 then m.p1Staked else m.p2Staked) = false) :
    (c = m.p1 ∧ m.p2Staked = true ∧ maybeStart (stakedMark m c) now =
       { m with p1Staked := true, status := STAKED, startTime := now }) ∨
    (c = m.p1 ∧ m.p2Staked = false ∧ maybeStart (stakedMark m c) now =
       { m with p1Staked := true }) ∨
    (¬c = m.p1 ∧ m.p1Staked = true ∧ maybeStart (stakedMark m c) now =
       { m with p2Staked := true, status := STAKED, startTime := now }) ∨
    (¬c = m.p1 ∧ m.p1Staked = false ∧ maybeStart (stakedMark m c) now =
       { m with p2Staked := true }) := by
  by_cases hc : c = m.p1
  · rw [stakedMark_p1 m c hc]
    rcases hp2 : m.p2Staked
    · refine Or.inr (Or.inl ⟨hc, rfl, ?_⟩)
      rw [maybeStart_not]
      simp [hp2]
    · refine Or.inl ⟨hc, rfl, ?_⟩
      rw [maybeStart_both]
      simp [hp2]
  · rw [stakedMark_p2 m c hc]
    rcases hp1 : m.p1Staked
    · refine Or.inr (Or.inr (Or.inr ⟨hc, rfl, ?_⟩))
      rw [maybeStart_not]
      simp [hp1]
    · refine Or.inr (Or.inr (Or.inl ⟨hc, rfl, ?_⟩))
      rw [maybeStart_both]
      simp [hp1]

/-- The staked-flag update preserves every field but the flags. -/
theorem stake_id (m : Match) (c : Addr) (now : Nat) :
    (maybeStart (stakedMark m c) now).id = m.id := by
  unfold maybeStart stakedMark
  split_ifs <;> simp

/-- A match past CREATED has both staked flags set. -/
theorem both_staked_of_staked (k : B32) (m : Match) (hMC : MatchCore k m)
    (hst : m.status = STAKED) : m.p1Staked = true ∧ m.p2Staked = true := by
  by_contra hno
  have := hMC.2.2.2 hno
  rw [hst] at this
  simp [STAKED, CREATED] at this

/-- A slot holding a match that is past CREATED was really written. -/
theorem id_ne_zero_of_status (k : B32) (m : Match) (hMC : MatchCore k m)
    (h : m.status ≠ CREATED) : m.id ≠ 0 := by
  intro h0
  rw [hMC.1 h0] at h
  exact h rfl

end PlayGame

namespace PlayGame

open GameToken

/-! Preservation of the structural invariant by every transaction. -/

theorem tokStep_ok (st : EngineState) (r : Except Err TokenState)
    (st2 : EngineState) (h : tokStep st r = .ok st2) :
    st2.matchesOf = st.matchesOf ∧ r = .ok st2.token := by
  unfold tokStep at h
  rcases r with e | t
  · simp at h
  · injection h with h2
    subst h2
    exact ⟨rfl, rfl⟩

theorem core_createMatch (cfg : Config) (st : EngineState) (c : Addr)
    (k : B32) (p1 p2 : Addr) (s : Nat) (st2 : EngineState)
    (hC : CoreInv st) (hok : createMatch cfg st c k p1 p2 s = .ok st2) :
    CoreInv st2 := by
  rw [createMatch_ok_iff] at hok
  obtain ⟨-, hk0, hp1, hp2, hpp, hs, hid, rfl⟩ := hok
  intro k2
  by_cases hk : k2 = k
  · subst hk
    simp only [setMatch_eq]
    exact ⟨fun h => absurd h hk0, fun _ => ⟨rfl, Nat.pos_of_ne_zero hs,
      hp1, hp2, hpp⟩, fun _ => rfl, fun _ => rfl⟩
  · simp only []
    rw [setMatch_ne _ _ _ _ hk]
    exact hC k2

theorem core_stake (cfg : Config) (st : EngineState) (c : Addr) (k : B32)
    (now : Nat) (st2 : EngineState)
    (hC : CoreInv st) (hok : stake cfg st c k now = .ok st2) : CoreInv st2 := by
  obtain ⟨hid, hcr, hmem, hflag, t, hT, rfl⟩ := stake_ok_elim cfg st c k now st2 hok
  intro k2
  by_cases hk : k2 = k
  · subst hk
    obtain ⟨hA, hB, hCc, hD⟩ := hC k2
    have hBm := hB hid
    simp only [setMatch_eq]
    rcases stake_newMatch (st.matchesOf k2) c now hflag with
      ⟨hc, hf, heq⟩ | ⟨hc, hf, heq⟩ | ⟨hc, hf, heq⟩ | ⟨hc, hf, heq⟩ <;>
      rw [heq]
    · exact ⟨fun h => absurd (by simpa using h) hid,
        fun _ => by simpa using hBm,
        fun h => by simp [STAKED, CREATED] at h,
        fun h => by simp [hf] at h⟩
    · exact ⟨fun h => absurd (by simpa using h) hid,
        fun _ => by simpa using hBm,
        fun _ => by simpa using hCc hcr,
        fun _ => by simpa using hcr⟩
    · exact ⟨fun h => absurd (by simpa using h) hid,
        fun _ => by simpa using hBm,
        fun h => by simp [STAKED, CREATED] at h,
        fun h => by simp [hf] at h⟩
    · exact ⟨fun h => absurd (by simpa using h) hid,
        fun _ => by simpa using hBm,
        fun _ => by simpa using hCc hcr,
        fun _ => by simpa using hcr⟩
  · simp only []
    rw [setMatch_ne _ _ _ _ hk]
    exact hC k2

theorem core_commitResult (cfg : Config) (st : EngineState) (c : Addr)
    (k : B32) (w : Addr) (st2 : EngineState)
    (hC : CoreInv st) (hok : commitResult cfg st c k w = .ok st2) :
    CoreInv st2 := by
  obtain ⟨-, hid, hst, -, t, -, rfl⟩ := commitResult_ok_elim cfg st c k w st2 hok
  intro k2
  by_cases hk : k2 = k
  · subst hk
    obtain ⟨hb1, hb2⟩ := both_staked_of_staked k2 (st.matchesOf k2) (hC k2) hst
    obtain ⟨hA, hB, hCc, hD⟩ := hC k2
    simp only [setMatch_eq]
    exact ⟨fun h => absurd (by simpa using h) hid,
      fun _ => by simpa using hB hid,
      fun h => by simp [SETTLED, CREATED] at h,
      fun h => by simp [hb1, hb2] at h⟩
  · simp only []
    rw [setMatch_ne _ _ _ _ hk]
    exact hC k2

theorem core_refund (cfg : Config) (st : EngineState) (k : B32) (now : Nat)
    (st2 : EngineState)
    (hC : CoreInv st) (hok : refund cfg st k now = .ok st2) : CoreInv st2 := by
  obtain ⟨hid, hst, -, t2, -, rfl⟩ := refund_ok_elim cfg st k now st2 hok
  intro k2
  by_cases hk : k2 = k
  · subst hk
    obtain ⟨hb1, hb2⟩ := both_staked_of_staked k2 (st.matchesOf k2) (hC k2) hst
    obtain ⟨hA, hB, hCc, hD⟩ := hC k2
    simp only [setMatch_eq]
    exact ⟨fun h => absurd (by simpa using h) hid,
      fun _ => by simpa using hB hid,
      fun h => by simp [REFUNDED, CREATED] at h,
      fun h => by simp [hb1, hb2] at h⟩
  · simp only []
    rw [setMatch_ne _ _ _ _ hk]
    exact hC k2

/-- Every transaction, successful or reverted, preserves the structural
invariant — token transactions touch no match state at all. -/
theorem core_applyOp (cfg : Config) (st : EngineState) (op : Op)
    (hC : CoreInv st) : CoreInv (applyOp cfg st op) := by
  unfold applyOp
  rcases hs : step cfg st op with e | st2
  · simp only []
    exact hC
  · simp only []
    cases op with
    | create c k p1 p2 s =>
        exact core_createMatch cfg st c k p1 p2 s st2 hC (by simpa [step] using hs)
    | stakeCall c k now =>
        exact core_stake cfg st c k now st2 hC (by simpa [step] using hs)
    | commit c k w =>
        exact core_commitResult cfg st c k w st2 hC (by simpa [step] using hs)
    | refundCall k now =>
        exact core_refund cfg st k now st2 hC (by simpa [step] using hs)
    | approveTok c sp a =>
        obtain ⟨hm, -⟩ := tokStep_ok st _ st2 (by simpa [step] using hs)
        intro k2
        rw [hm]
        exact hC k2
    | transferTok c d a =>
        obtain ⟨hm, -⟩ := tokStep_ok st _ st2 (by simpa [step] using hs)
        intro k2
        rw [hm]
        exact hC k2
    | pauseTok c =>
        obtain ⟨hm, -⟩ := tokStep_ok st _ st2 (by simpa [step] using hs)
        intro k2
        rw [hm]
        exact hC k2
    | unpauseTok c =>
        obtain ⟨hm, -⟩ := tokStep_ok st _ st2 (by simpa [step] using hs)
        intro k2
        rw [hm]
        exact hC k2
    | mintTok c d a =>
        obtain ⟨hm, -⟩ := tokStep_ok st _ st2 (by simpa [step] using hs)
        intro k2
        rw [hm]
        exact hC k2
    | grantMinterTok c m =>
        obtain ⟨hm, -⟩ := tokStep_ok st _ st2 (by simpa [step] using hs)
        intro k2
        rw [hm]
        exact hC k2

theorem core_run (cfg : Config) (st : EngineState) (ops : List Op)
    (hC : CoreInv st) : CoreInv (run cfg st ops) := by
  induction ops generalizing st with
  | nil => exact hC
  | cons op rest ih =>
      rw [run, List.foldl_cons]
      exact ih (applyOp cfg st op) (core_applyOp cfg st op hC)

theorem core_init (d : Addr) (L : Addr → Nat) : CoreInv (initState d L) :=
  fun _ => ⟨fun _ => rfl, fun h => absurd rfl h, fun _ => rfl, fun _ => rfl⟩

end PlayGame

namespace PlayGame

open GameToken

/-! Preservation of the full invariant by externally originated
transactions. -/

theorem escrow_of_unchanged (cfg : Config) (st st2 : EngineState)
    (hm : st2.matchesOf = st.matchesOf)
    (hb : st.token.balances cfg.self ≤ st2.token.balances cfg.self)
    (hesc : escrowOk cfg st) : escrowOk cfg st2 := by
  obtain ⟨s, hsupp, hsum⟩ := hesc
  refine ⟨s, ?_, ?_⟩
  · intro k hk
    rw [hm]
    exact hsupp k hk
  · rw [hm]
    exact le_trans hsum hb

/-- A successful refund payout sequence on a staked match implies the token
was not paused and the paying contract address is non-zero. -/
theorem refundTransfers_ok_facts (t t2 : TokenState) (self : Addr) (m : Match)
    (hp1 : m.p1Staked = true) (h : refundTransfers t self m = .ok t2) :
    t.paused = false ∧ self ≠ 0 := by
  simp only [refundTransfers, hp1, if_true] at h
  rcases hT1 : transfer t self m.p1 m.stake with e | t1 <;> rw [hT1] at h
  · simp at h
  · obtain ⟨hp, hC⟩ := transfer_ok t t1 self m.p1 m.stake hT1
    exact ⟨hp, (transferCore_ok t t1 self m.p1 m.stake hC).1⟩

theorem inv_createMatch (cfg : Config) (st : EngineState) (c : Addr)
    (k : B32) (p1 p2 : Addr) (s : Nat) (st2 : EngineState)
    (hI : Inv cfg st) (hok : createMatch cfg st c k p1 p2 s = .ok st2) :
    Inv cfg st2 := by
  obtain ⟨hCo, hS, hAl, hE⟩ := hI
  refine ⟨core_createMatch cfg st c k p1 p2 s st2 hCo hok, ?_, ?_, ?_⟩
  all_goals rw [createMatch_ok_iff] at hok
  all_goals obtain ⟨-, hk0, hp1, hp2, hpp, hs, hid, rfl⟩ := hok
  · intro k2
    by_cases hk : k2 = k
    · subst hk
      simp only [setMatch_eq]
      exact ⟨fun h => by simp [freshMatch] at h, fun h => by simp [freshMatch] at h⟩
    · simp only []
      rw [setMatch_ne _ _ _ _ hk]
      exact hS k2
  · exact hAl
  · apply escrow_step cfg st _ k
    · intro k2 hk
      simp only []
      rw [setMatch_ne _ _ _ _ hk]
    · simp only [setMatch_eq]
      have hemp : st.matchesOf k = emptyMatch := (hCo k).1 hid
      rw [hemp, emptyMatch_custodyHeld]
      simp [custodyHeld, freshMatch, stakedCount]
    · exact hE

theorem inv_stake (cfg : Config) (st : EngineState) (c : Addr) (k : B32)
    (now : Nat) (st2 : EngineState)
    (hI : Inv cfg st) (hok : stake cfg st c k now = .ok st2) : Inv cfg st2 := by
  obtain ⟨hCo, hS, hAl, hE⟩ := hI
  have hcore := core_stake cfg st c k now st2 hCo hok
  obtain ⟨hid, hcr, hmem, hflag, t, hT, rfl⟩ := stake_ok_elim cfg st c k now st2 hok
  obtain ⟨hp, hf0, hd0, hal, hble, hmove, hoth, hrow, hpsame, hmsame, hasame⟩ :=
    transferFrom_ok st.token t cfg.self c cfg.self (st.matchesOf k).stake hT
  have hspos : 0 < (st.matchesOf k).stake := ((hCo k).2.1 hid).2.1
  have hcself : c ≠ cfg.self := by
    intro heq
    rw [heq, hAl cfg.self] at hal
    rcases hal with h | h
    · norm_num [MAXUINT] at h
    · omega
  have hbs : t.balances cfg.self =
      st.token.balances cfg.self + (st.matchesOf k).stake := (hmove hcself).2
  refine ⟨hcore, ?_, ?_, ?_⟩
  · intro k2
    by_cases hk : k2 = k
    · subst hk
      obtain ⟨hS1, hS2⟩ := hS k2
      simp only [setMatch_eq]
      rcases stake_newMatch (st.matchesOf k2) c now hflag with
        ⟨hc, hf, heq⟩ | ⟨hc, hf, heq⟩ | ⟨hc, hf, heq⟩ | ⟨hc, hf, heq⟩ <;> rw [heq]
      · exact ⟨fun _ => by simpa using (hc ▸ hcself),
          fun h => hS2 (by simpa using h)⟩
      · exact ⟨fun _ => by simpa using (hc ▸ hcself),
          fun h => hS2 (by simpa using h)⟩
      · have hc2 : c = (st.matchesOf k2).p2 := hmem.resolve_left hc
        exact ⟨fun h => hS1 (by simpa using h),
          fun _ => by simpa using (hc2 ▸ hcself)⟩
      · have hc2 : c = (st.matchesOf k2).p2 := hmem.resolve_left hc
        exact ⟨fun h => hS1 (by simpa using h),
          fun _ => by simpa using (hc2 ▸ hcself)⟩
    · simp only []
      rw [setMatch_ne _ _ _ _ hk]
      exact hS k2
  · intro sp
    simp only []
    rw [hrow cfg.self sp (Ne.symm hcself)]
    exact hAl sp
  · apply escrow_step cfg st _ k
    · intro k2 hk
      simp only []
      rw [setMatch_ne _ _ _ _ hk]
    · simp only [setMatch_eq]
      rw [hbs]
      rcases stake_newMatch (st.matchesOf k) c now hflag with
        ⟨hc, hf, heq⟩ | ⟨hc, hf, heq⟩ | ⟨hc, hf, heq⟩ | ⟨hc, hf, heq⟩ <;> rw [heq]
      · have hp1f : (st.matchesOf k).p1Staked = false := by simpa [hc] using hflag
        simp [custodyHeld, stakedCount, hcr, hp1f, hf, STAKED, CREATED]
        all_goals omega
      · have hp1f : (st.matchesOf k).p1Staked = false := by simpa [hc] using hflag
        simp [custodyHeld, stakedCount, hcr, hp1f, hf, CREATED]
        all_goals omega
      · have hp2f : (st.matchesOf k).p2Staked = false := by simpa [hc] using hflag
        simp [custodyHeld, stakedCount, hcr, hp2f, hf, STAKED, CREATED]
        all_goals omega
      · have hp2f : (st.matchesOf k).p2Staked = false := by simpa [hc] using hflag
        simp [custodyHeld, stakedCount, hcr, hp2f, hf, CREATED]
        all_goals omega
    · exact hE

theorem inv_commitResult (cfg : Config) (st : EngineState) (c : Addr)
    (k : B32) (w : Addr) (st2 : EngineState)
    (hI : Inv cfg st) (hok : commitResult cfg st c k w = .ok st2) :
    Inv cfg st2 := by
  obtain ⟨hCo, hS, hAl, hE⟩ := hI
  have hcore := core_commitResult cfg st c k w st2 hCo hok
  obtain ⟨-, hid, hst, hw, t, hT, rfl⟩ := commitResult_ok_elim cfg st c k w st2 hok
  obtain ⟨hb1, hb2⟩ := both_staked_of_staked k (st.matchesOf k) (hCo k) hst
  have hwself : w ≠ cfg.self := by
    rcases hw with h | h
    · rw [h]
      exact (hS k).1 hb1
    · rw [h]
      exact (hS k).2 hb2
  obtain ⟨hp, hC2⟩ := transfer_ok st.token t cfg.self w
    ((st.matchesOf k).stake * 2) hT
  obtain ⟨hs0, hw0, hble, hmove, hoth, hal2, hp2, hm2, ha2⟩ :=
    transferCore_ok st.token t cfg.self w ((st.matchesOf k).stake * 2) hC2
  obtain ⟨hbself, hbw⟩ := hmove (Ne.symm hwself)
  refine ⟨hcore, ?_, ?_, ?_⟩
  · intro k2
    by_cases hk : k2 = k
    · subst hk
      obtain ⟨hS1, hS2⟩ := hS k2
      simp only [setMatch_eq]
      exact ⟨fun h => hS1 (by simpa using h), fun h => hS2 (by simpa using h)⟩
    · simp only []
      rw [setMatch_ne _ _ _ _ hk]
      exact hS k2
  · intro sp
    simp only []
    rw [hal2]
    exact hAl sp
  · apply escrow_step cfg st _ k
    · intro k2 hk
      simp only []
      rw [setMatch_ne _ _ _ _ hk]
    · simp only [setMatch_eq]
      rw [hbself]
      have hcust : custodyHeld (st.matchesOf k) = (st.matchesOf k).stake * 2 := by
        simp [custodyHeld, stakedCount, hst, hb1, hb2, STAKED, CREATED]
      rw [hcust]
      simp [custodyHeld, SETTLED, CREATED, STAKED]
      omega
    · exact hE

theorem inv_refund (cfg : Config) (st : EngineState) (k : B32) (now : Nat)
    (st2 : EngineState)
    (hI : Inv cfg st) (hok : refund cfg st k now = .ok st2) : Inv cfg st2 := by
  obtain ⟨hCo, hS, hAl, hE⟩ := hI
  have hcore := core_refund cfg st k now st2 hCo hok
  obtain ⟨hid, hst, htime, t2, hRT, rfl⟩ := refund_ok_elim cfg st k now st2 hok
  obtain ⟨hb1, hb2⟩ := both_staked_of_staked k (st.matchesOf k) (hCo k) hst
  obtain ⟨-, hspos, h10, h20, hpp⟩ := (hCo k).2.1 hid
  obtain ⟨hpause, hself0⟩ :=
    refundTransfers_ok_facts st.token t2 cfg.self (st.matchesOf k) hb1 hRT
  have hcust : custodyHeld (st.matchesOf k) = (st.matchesOf k).stake * 2 := by
    simp [custodyHeld, stakedCount, hst, hb1, hb2, STAKED, CREATED]
  have hbal : (st.matchesOf k).stake * 2 ≤ st.token.balances cfg.self := by
    rw [← hcust]
    exact escrow_bound cfg st hE k
  obtain ⟨t2x, hRTx, hbp1, hbp2, hbself, hboth, hal2, hp2, hm2, ha2⟩ :=
    refundTransfers_both st.token cfg.self (st.matchesOf k) hb1 hb2 hpp h10 h20
      ((hS k).1 hb1) ((hS k).2 hb2) hself0 hpause hbal
  rw [hRT] at hRTx
  injection hRTx with ht2x
  subst ht2x
  refine ⟨hcore, ?_, ?_, ?_⟩
  · intro k2
    by_cases hk : k2 = k
    · subst hk
      obtain ⟨hS1, hS2⟩ := hS k2
      simp only [setMatch_eq]
      exact ⟨fun h => hS1 (by simpa using h), fun h => hS2 (by simpa using h)⟩
    · simp only []
      rw [setMatch_ne _ _ _ _ hk]
      exact hS k2
  · intro sp
    simp only []
    rw [hal2]
    exact hAl sp
  · apply escrow_step cfg st _ k
    · intro k2 hk
      simp only []
      rw [setMatch_ne _ _ _ _ hk]
    · simp only [setMatch_eq]
      rw [hbself, hcust]
      simp [custodyHeld, REFUNDED, CREATED, STAKED]
      omega
    · exact hE

end PlayGame

namespace PlayGame

open GameToken

/-- Token transactions leave every match untouched, and when externally
originated they keep the PlayGame allowance row empty and never shrink the
pool. -/
theorem inv_tok (cfg : Config) (st st2 : EngineState)
    (hm : st2.matchesOf = st.matchesOf)
    (hallow : ∀ sp, st2.token.allowances cfg.self sp =
      st.token.allowances cfg.self sp)
    (hbal : st.token.balances cfg.self ≤ st2.token.balances cfg.self)
    (hI : Inv cfg st) : Inv cfg st2 := by
  obtain ⟨hCo, hS, hAl, hE⟩ := hI
  refine ⟨?_, ?_, ?_, escrow_of_unchanged cfg st st2 hm hbal hE⟩
  · intro k
    rw [hm]
    exact hCo k
  · intro k
    rw [hm]
    exact hS k
  · intro sp
    rw [hallow sp]
    exact hAl sp

/-- Every externally originated transaction preserves the full invariant. -/
theorem inv_applyOp (cfg : Config) (st : EngineState) (op : Op)
    (hco : callerOk cfg op = true) (hI : Inv cfg st) :
    Inv cfg (applyOp cfg st op) := by
  unfold applyOp
  rcases hs : step cfg st op with e | st2
  · simp only []
    exact hI
  · simp only []
    cases op with
    | create c k p1 p2 s =>
        exact inv_createMatch cfg st c k p1 p2 s st2 hI (by simpa [step] using hs)
    | stakeCall c k now =>
        exact inv_stake cfg st c k now st2 hI (by simpa [step] using hs)
    | commit c k w =>
        exact inv_commitResult cfg st c k w st2 hI (by simpa [step] using hs)
    | refundCall k now =>
        exact inv_refund cfg st k now st2 hI (by simpa [step] using hs)
    | approveTok c sp a =>
        obtain ⟨hm, ht⟩ := tokStep_ok st _ st2 (by simpa [step] using hs)
        have hcs : c ≠ cfg.self := by simpa [callerOk] using hco
        obtain ⟨-, -, hb, -, -, -, hrow⟩ :=
          approve_ok st.token st2.token c sp a ht
        exact inv_tok cfg st st2 hm
          (fun sp2 => hrow cfg.self sp2 (Ne.symm hcs)) (le_of_eq (by rw [hb])) hI
    | transferTok c d a =>
        obtain ⟨hm, ht⟩ := tokStep_ok st _ st2 (by simpa [step] using hs)
        have hcs : c ≠ cfg.self := by simpa [callerOk] using hco
        obtain ⟨hp, hC⟩ := transfer_ok st.token st2.token c d a ht
        obtain ⟨hc0, hd0, hle, hmove, hoth, hal, -, -, -⟩ :=
          transferCore_ok st.token st2.token c d a hC
        refine inv_tok cfg st st2 hm (fun sp2 => by rw [hal]) ?_ hI
        by_cases hsd : cfg.self = d
        · subst hsd
          obtain ⟨-, hplus⟩ := hmove hcs
          omega
        · rw [hoth cfg.self (Ne.symm hcs) hsd]
    | pauseTok c =>
        obtain ⟨hm, ht⟩ := tokStep_ok st _ st2 (by simpa [step] using hs)
        obtain ⟨hb, hal, -, -, -⟩ := pause_ok st.token st2.token c ht
        exact inv_tok cfg st st2 hm (fun sp2 => by rw [hal])
          (le_of_eq (by rw [hb])) hI
    | unpauseTok c =>
        obtain ⟨hm, ht⟩ := tokStep_ok st _ st2 (by simpa [step] using hs)
        obtain ⟨hb, hal, -, -, -⟩ := unpause_ok st.token st2.token c ht
        exact inv_tok cfg st st2 hm (fun sp2 => by rw [hal])
          (le_of_eq (by rw [hb])) hI
    | mintTok c d a =>
        obtain ⟨hm, ht⟩ := tokStep_ok st _ st2 (by simpa [step] using hs)
        obtain ⟨hb, hal, -, -, -⟩ := mint_ok st.token st2.token c d a ht
        exact inv_tok cfg st st2 hm (fun sp2 => by rw [hal]) (hb cfg.self) hI
    | grantMinterTok c m =>
        obtain ⟨hm, ht⟩ := tokStep_ok st _ st2 (by simpa [step] using hs)
        obtain ⟨hb, hal, -, -⟩ := grantMinterRole_ok st.token st2.token c m ht
        exact inv_tok cfg st st2 hm (fun sp2 => by rw [hal])
          (le_of_eq (by rw [hb])) hI

theorem inv_run (cfg : Config) (st : EngineState) (ops : List Op)
    (hops : ∀ op ∈ ops, callerOk cfg op = true) (hI : Inv cfg st) :
    Inv cfg (run cfg st ops) := by
  induction ops generalizing st with
  | nil => exact hI
  | cons op rest ih =>
      rw [run, List.foldl_cons]
      exact ih (applyOp cfg st op)
        (fun o ho => hops o (List.mem_cons_of_mem op ho))
        (inv_applyOp cfg st op (hops op (List.mem_cons_self op rest)) hI)

theorem inv_init (cfg : Config) (d : Addr) (L : Addr → Nat) :
    Inv cfg (initState d L) := by
  refine ⟨core_init d L, ?_, ?_, ?_⟩
  · intro k
    simp [MatchSelf, initState, emptyMatch]
  · intro sp
    rfl
  · refine ⟨∅, ?_, ?_⟩
    · intro k _
      exact emptyMatch_custodyHeld
    · simp

theorem reachable_inv (cfg : Config) (st : EngineState)
    (h : Reachable cfg st) : Inv cfg st := by
  obtain ⟨d, L, ops, hops, rfl⟩ := h
  exact inv_run cfg (initState d L) ops hops (inv_init cfg d L)

end PlayGame

namespace PlayGame

open GameToken

/-- Under the invariant, with the token unpaused, committing a result on a
STAKED match succeeds and pays exactly twice the stake out of a pool that
covers it; the per-match custody goes from exactly twice the stake to
nothing. -/
theorem commitResult_succeeds (cfg : Config) (st : EngineState) (k : B32)
    (w : Addr) (hI : Inv cfg st) (hst : (st.matchesOf k).status = STAKED)
    (hw : w = (st.matchesOf k).p1 ∨ w = (st.matchesOf k).p2)
    (hpause : st.token.paused = false) (hself : cfg.self ≠ 0) :
    custodyHeld (st.matchesOf k) = (st.matchesOf k).stake * 2 ∧
    (st.matchesOf k).stake * 2 ≤ st.token.balances cfg.self ∧
    ∃ st2, commitResult cfg st cfg.operator k w = .ok st2 ∧
      st2.matchesOf k = { st.matchesOf k with status := SETTLED } ∧
      (∀ k2, k2 ≠ k → st2.matchesOf k2 = st.matchesOf k2) ∧
      st2.token.balances w =
        st.token.balances w + (st.matchesOf k).stake * 2 ∧
      st2.token.balances cfg.self =
        st.token.balances cfg.self - (st.matchesOf k).stake * 2 ∧
      (∀ x, x ≠ w → x ≠ cfg.self → st2.token.balances x = st.token.balances x) := by
  obtain ⟨hCo, hS, hAl, hE⟩ := hI
  obtain ⟨hb1, hb2⟩ := both_staked_of_staked k (st.matchesOf k) (hCo k) hst
  have hid : (st.matchesOf k).id ≠ 0 :=
    id_ne_zero_of_status k (st.matchesOf k) (hCo k) (by simp [hst, STAKED, CREATED])
  obtain ⟨-, hspos, h10, h20, hpp⟩ := (hCo k).2.1 hid
  have hwself : w ≠ cfg.self := by
    rcases hw with h | h
    · rw [h]
      exact (hS k).1 hb1
    · rw [h]
      exact (hS k).2 hb2
  have hw0 : w ≠ 0 := by
    rcases hw with h | h
    · rw [h]
      exact h10
    · rw [h]
      exact h20
  have hcust : custodyHeld (st.matchesOf k) = (st.matchesOf k).stake * 2 := by
    simp [custodyHeld, stakedCount, hst, hb1, hb2, STAKED, CREATED]
  have hbal : (st.matchesOf k).stake * 2 ≤ st.token.balances cfg.self := by
    rw [← hcust]
    exact escrow_bound cfg st hE k
  obtain ⟨t, hT⟩ := transfer_isOk st.token cfg.self w
    ((st.matchesOf k).stake * 2) hpause hself hw0 hbal
  obtain ⟨-, hC2⟩ := transfer_ok st.token t cfg.self w _ hT
  obtain ⟨-, -, hle, hmove, hoth, -, -, -, -⟩ :=
    transferCore_ok st.token t cfg.self w _ hC2
  obtain ⟨hbself, hbw⟩ := hmove (Ne.symm hwself)
  refine ⟨hcust, hbal, _, commitResult_ok_intro cfg st k w t hid hst hw hT,
    by simp [setMatch_eq], fun k2 hk => by simp [setMatch_ne _ _ _ _ hk],
    by simpa using hbw, by simpa using hbself, ?_⟩
  intro x hxw hxs
  simpa using hoth x hxs hxw

/-- Under the invariant, with the token unpaused, a timed-out refund of a
STAKED match succeeds, returns exactly one stake to each player and leaves
the match holding no custody. -/
theorem refund_succeeds (cfg : Config) (st : EngineState) (k : B32)
    (now : Nat) (hI : Inv cfg st) (hst : (st.matchesOf k).status = STAKED)
    (htime : (st.matchesOf k).startTime + cfg.timeout ≤ now)
    (hpause : st.token.paused = false) (hself : cfg.self ≠ 0) :
    ∃ st2, refund cfg st k now = .ok st2 ∧
      st2.matchesOf k = { st.matchesOf k with status := REFUNDED } ∧
      (∀ k2, k2 ≠ k → st2.matchesOf k2 = st.matchesOf k2) ∧
      st2.token.balances (st.matchesOf k).p1 =
        st.token.balances (st.matchesOf k).p1 + (st.matchesOf k).stake ∧
      st2.token.balances (st.matchesOf k).p2 =
        st.token.balances (st.matchesOf k).p2 + (st.matchesOf k).stake ∧
      st2.token.balances cfg.self =
        st.token.balances cfg.self - (st.matchesOf k).stake * 2 := by
  obtain ⟨hCo, hS, hAl, hE⟩ := hI
  obtain ⟨hb1, hb2⟩ := both_staked_of_staked k (st.matchesOf k) (hCo k) hst
  have hid : (st.matchesOf k).id ≠ 0 :=
    id_ne_zero_of_status k (st.matchesOf k) (hCo k) (by simp [hst, STAKED, CREATED])
  obtain ⟨-, hspos, h10, h20, hpp⟩ := (hCo k).2.1 hid
  have hcust : custodyHeld (st.matchesOf k) = (st.matchesOf k).stake * 2 := by
    simp [custodyHeld, stakedCount, hst, hb1, hb2, STAKED, CREATED]
  have hbal : (st.matchesOf k).stake * 2 ≤ st.token.balances cfg.self := by
    rw [← hcust]
    exact escrow_bound cfg st hE k
  obtain ⟨t2, hRT, hbp1, hbp2, hbself, hboth, -, -, -, -⟩ :=
    refundTransfers_both st.token cfg.self (st.matchesOf k) hb1 hb2 hpp h10 h20
      ((hS k).1 hb1) ((hS k).2 hb2) hself hpause hbal
  exact ⟨_, refund_ok_intro cfg st k now t2 hid hst htime hRT,
    by simp [setMatch_eq], fun k2 hk => by simp [setMatch_ne _ _ _ _ hk],
    by simpa using hbp1, by simpa using hbp2, by simpa using hbself⟩

/-! Status monotonicity machinery. -/

theorem statusStep_to_reach (a b : Nat) (h : StatusStep a b) :
    StatusReach a b := by
  rcases h with h | h | h
  · exact Or.inl h
  · exact Or.inr (Or.inl ⟨h.1, Or.inl h.2⟩)
  · exact Or.inr (Or.inr ⟨h.1, h.2⟩)

theorem statusReach_trans (a b c : Nat) (h1 : StatusReach a b)
    (h2 : StatusReach b c) : StatusReach a c := by
  simp only [StatusReach, CREATED, STAKED, SETTLED, REFUNDED] at *
  omega

theorem status_applyOp (cfg : Config) (st : EngineState) (op : Op) (k : B32)
    (hCo : CoreInv st) :
    StatusStep ((st.matchesOf k).status)
      (((applyOp cfg st op).matchesOf k).status) := by
  unfold applyOp
  rcases hs : step cfg st op with e | st2
  · exact Or.inl rfl
  · simp only []
    cases op with
    | create c kk p1 p2 s =>
        have hok : createMatch cfg st c kk p1 p2 s = .ok st2 := by
          simpa [step] using hs
        rw [createMatch_ok_iff] at hok
        obtain ⟨-, -, -, -, -, -, hid, rfl⟩ := hok
        by_cases hk : k = kk
        · subst hk
          have hemp := (hCo k).1 hid
          simp only [setMatch_eq]
          rw [hemp]
          exact Or.inl rfl
        · simp only [setMatch_ne _ _ _ _ hk]
          exact Or.inl rfl
    | stakeCall c kk now =>
        have hok : stake cfg st c kk now = .ok st2 := by simpa [step] using hs
        obtain ⟨hid, hcr, hmem, hflag, t, hT, rfl⟩ :=
          stake_ok_elim cfg st c kk now st2 hok
        by_cases hk : k = kk
        · subst hk
          simp only [setMatch_eq]
          rcases stake_newMatch (st.matchesOf k) c now hflag with
            ⟨-, -, heq⟩ | ⟨-, -, heq⟩ | ⟨-, -, heq⟩ | ⟨-, -, heq⟩ <;> rw [heq]
          · exact Or.inr (Or.inl ⟨hcr, by simp⟩)
          · exact Or.inl (by simp)
          · exact Or.inr (Or.inl ⟨hcr, by simp⟩)
          · exact Or.inl (by simp)
        · simp only [setMatch_ne _ _ _ _ hk]
          exact Or.inl rfl
    | commit c kk w =>
        have hok : commitResult cfg st c kk w = .ok st2 := by
          simpa [step] using hs
        obtain ⟨-, -, hst, -, t, hT, rfl⟩ :=
          commitResult_ok_elim cfg st c kk w st2 hok
        by_cases hk : k = kk
        · subst hk
          simp only [setMatch_eq]
          exact Or.inr (Or.inr ⟨hst, Or.inl (by simp)⟩)
        · simp only [setMatch_ne _ _ _ _ hk]
          exact Or.inl rfl
    | refundCall kk now =>
        have hok : refund cfg st kk now = .ok st2 := by simpa [step] using hs
        obtain ⟨-, hst, -, t2, hRT, rfl⟩ :=
          refund_ok_elim cfg st kk now st2 hok
        by_cases hk : k = kk
        · subst hk
          simp only [setMatch_eq]
          exact Or.inr (Or.inr ⟨hst, Or.inr (by simp)⟩)
        · simp only [setMatch_ne _ _ _ _ hk]
          exact Or.inl rfl
    | approveTok c sp a =>
        obtain ⟨hm, -⟩ := tokStep_ok st _ st2 (by simpa [step] using hs)
        rw [hm]
        exact Or.inl rfl
    | transferTok c d a =>
        obtain ⟨hm, -⟩ := tokStep_ok st _ st2 (by simpa [step] using hs)
        rw [hm]
        exact Or.inl rfl
    | pauseTok c =>
        obtain ⟨hm, -⟩ := tokStep_ok st _ st2 (by simpa [step] using hs)
        rw [hm]
        exact Or.inl rfl
    | unpauseTok c =>
        obtain ⟨hm, -⟩ := tokStep_ok st _ st2 (by simpa [step] using hs)
        rw [hm]
        exact Or.inl rfl
    | mintTok c d a =>
        obtain ⟨hm, -⟩ := tokStep_ok st _ st2 (by simpa [step] using hs)
        rw [hm]
        exact Or.inl rfl
    | grantMinterTok c m =>
        obtain ⟨hm, -⟩ := tokStep_ok st _ st2 (by simpa [step] using hs)
        rw [hm]
        exact Or.inl rfl

theorem status_run (cfg : Config) (st : EngineState) (ops : List Op) (k : B32)
    (hCo : CoreInv st) :
    StatusReach ((st.matchesOf k).status)
      (((run cfg st ops).matchesOf k).status) := by
  induction ops generalizing st with
  | nil => exact Or.inl rfl
  | cons op rest ih =>
      rw [run, List.foldl_cons]
      exact statusReach_trans _ _ _
        (statusStep_to_reach _ _ (status_applyOp cfg st op k hCo))
        (ih (applyOp cfg st op) (core_applyOp cfg st op hCo))

theorem run_append (cfg : Config) (st : EngineState) (l1 l2 : List Op) :
    run cfg st (l1 ++ l2) = run cfg (run cfg st l1) l2 := by
  simp [run, List.foldl_append]

end PlayGame

namespace PlayGame

open GameToken

/-! Error-path characterizations used by the claims. -/

theorem refund_err_timeout (cfg : Config) (st : EngineState) (k : B32)
    (now : Nat) (hid : (st.matchesOf k).id ≠ 0)
    (hst : (st.matchesOf k).status = STAKED)
    (h : now < (st.matchesOf k).startTime + cfg.timeout) :
    refund cfg st k now = .error .timeoutNotReached := by
  simp only [refund]
  rw [if_neg hid, if_neg (by simp [hst]), if_pos h]

theorem refund_err_notStaked (cfg : Config) (st : EngineState) (k : B32)
    (now : Nat) (hid : (st.matchesOf k).id ≠ 0)
    (hst : (st.matchesOf k).status ≠ STAKED) :
    refund cfg st k now = .error .matchNotStaked := by
  simp only [refund]
  rw [if_neg hid, if_pos hst]

theorem commitResult_err (cfg : Config) (st : EngineState) (k : B32)
    (hst : (st.matchesOf k).status ≠ STAKED) (c w : Addr) :
    ∃ e, commitResult cfg st c k w = .error e := by
  by_cases hc : c = cfg.operator
  · by_cases hid : (st.matchesOf k).id = 0
    · refine ⟨.matchNotFound, ?_⟩
      simp only [commitResult]
      rw [if_neg (by simp [hc]), if_pos hid]
    · refine ⟨.matchNotStaked, ?_⟩
      simp only [commitResult]
      rw [if_neg (by simp [hc]), if_neg hid, if_pos hst]
  · refine ⟨.notOperator, ?_⟩
    simp only [commitResult]
    rw [if_pos hc]

theorem stake_err_notCreated (cfg : Config) (st : EngineState) (k : B32)
    (hid : (st.matchesOf k).id ≠ 0)
    (hst : (st.matchesOf k).status ≠ CREATED) (c : Addr) (now : Nat) :
    stake cfg st c k now = .error .matchNotCreated := by
  simp only [stake]
  rw [if_neg hid, if_pos hst]

theorem stake_err_transfer (cfg : Config) (st : EngineState) (c : Addr)
    (k : B32) (now : Nat) (e : Err)
    (hid : (st.matchesOf k).id ≠ 0)
    (hcr : (st.matchesOf k).status = CREATED)
    (hmem : c = (st.matchesOf k).p1 ∨ c = (st.matchesOf k).p2)
    (hflag : (if c = (st.matchesOf k).p1 then (st.matchesOf k).p1Staked
              else (st.matchesOf k).p2Staked) = false)
    (hT : transferFrom st.token cfg.self c cfg.self
            (st.matchesOf k).stake = .error e) :
    stake cfg st c k now = .error e := by
  simp only [stake]
  rw [if_neg hid, if_neg (by simp [hcr]), if_neg (by tauto),
    if_neg (by simp [hflag]), hT]

/-! Slots are written exactly by successful `createMatch` calls. -/

theorem id_applyOp (cfg : Config) (st : EngineState) (op : Op) (k : B32) :
    (((applyOp cfg st op).matchesOf k).id ≠ 0) ↔
      ((st.matchesOf k).id ≠ 0 ∨
        (match op with
         | .create _ k2 _ _ _ => decide (k2 = k) && (step cfg st op).toBool
         | _ => false) = true) := by
  unfold applyOp
  rcases hs : step cfg st op with e | st2
  · cases op <;> simp [hs, Except.toBool]
  · simp only []
    cases op with
    | create c k2 p1 p2 s =>
        have hok : createMatch cfg st c k2 p1 p2 s = .ok st2 := by
          simpa [step] using hs
        rw [createMatch_ok_iff] at hok
        obtain ⟨-, hk2, -, -, -, -, hid, rfl⟩ := hok
        by_cases hk : k2 = k
        · subst hk
          simp [setMatch_eq, freshMatch, hk2, hs, Except.toBool, hid]
        · simp [setMatch_ne _ _ _ _ (Ne.symm hk), hk]
    | stakeCall c k2 now =>
        have hok : stake cfg st c k2 now = .ok st2 := by simpa [step] using hs
        obtain ⟨hid, -, -, -, t, -, rfl⟩ := stake_ok_elim cfg st c k2 now st2 hok
        by_cases hk : k = k2
        · subst hk
          simp [setMatch_eq, stake_id, hid]
        · simp [setMatch_ne _ _ _ _ hk]
    | commit c k2 w =>
        have hok : commitResult cfg st c k2 w = .ok st2 := by
          simpa [step] using hs
        obtain ⟨-, hid, -, -, t, -, rfl⟩ :=
          commitResult_ok_elim cfg st c k2 w st2 hok
        by_cases hk : k = k2
        · subst hk
          simp [setMatch_eq, hid]
        · simp [setMatch_ne _ _ _ _ hk]
    | refundCall k2 now =>
        have hok : refund cfg st k2 now = .ok st2 := by simpa [step] using hs
        obtain ⟨hid, -, -, t2, -, rfl⟩ := refund_ok_elim cfg st k2 now st2 hok
        by_cases hk : k = k2
        · subst hk
          simp [setMatch_eq, hid]
        · simp [setMatch_ne _ _ _ _ hk]
    | approveTok c sp a =>
        obtain ⟨hm, -⟩ := tokStep_ok st _ st2 (by simpa [step] using hs)
        simp [hm]
    | transferTok c d a =>
        obtain ⟨hm, -⟩ := tokStep_ok st _ st2 (by simpa [step] using hs)
        simp [hm]
    | pauseTok c =>
        obtain ⟨hm, -⟩ := tokStep_ok st _ st2 (by simpa [step] using hs)
        simp [hm]
    | unpauseTok c =>
        obtain ⟨hm, -⟩ := tokStep_ok st _ st2 (by simpa [step] using hs)
        simp [hm]
    | mintTok c d a =>
        obtain ⟨hm, -⟩ := tokStep_ok st _ st2 (by simpa [step] using hs)
        simp [hm]
    | grantMinterTok c m =>
        obtain ⟨hm, -⟩ := tokStep_ok st _ st2 (by simpa [step] using hs)
        simp [hm]

theorem id_run_iff (cfg : Config) (st : EngineState) (ops : List Op)
    (k : B32) :
    ((run cfg st ops).matchesOf k).id ≠ 0 ↔
      ((st.matchesOf k).id ≠ 0 ∨ createdIn cfg st ops k = true) := by
  induction ops generalizing st with
  | nil => simp [run, createdIn]
  | cons op rest ih =>
      rw [run, List.foldl_cons]
      rw [show List.foldl (applyOp cfg) (applyOp cfg st op) rest =
            run cfg (applyOp cfg st op) rest from rfl,
        ih (applyOp cfg st op), id_applyOp]
      cases op with
      | create c k2 p1 p2 s =>
          simp only [createdIn, Bool.or_eq_true]
          tauto
      | stakeCall c k2 now =>
          simp only [createdIn, Bool.or_eq_true]
          simp
      | commit c k2 w =>
          simp only [createdIn, Bool.or_eq_true]
          simp
      | refundCall k2 now =>
          simp only [createdIn, Bool.or_eq_true]
          simp
      | approveTok c sp a =>
          simp only [createdIn, Bool.or_eq_true]
          simp
      | transferTok c d a =>
          simp only [createdIn, Bool.or_eq_true]
          simp
      | pauseTok c =>
          simp only [createdIn, Bool.or_eq_true]
          simp
      | unpauseTok c =>
          simp only [createdIn, Bool.or_eq_true]
          simp
      | mintTok c d a =>
          simp only [createdIn, Bool.or_eq_true]
          simp
      | grantMinterTok c m =>
          simp only [createdIn, Bool.or_eq_true]
          simp

end PlayGame

/-! The claims. -/

namespace PlayGame

/-- C1 counterexample: in the reachable state where match 7 is fully STAKED
and the token admin has paused GameToken, the operator's `commitResult` with
a valid winner does not settle — it reverts with the pause error, because the
payout transfer is `whenNotPaused`-gated. -/
theorem C1_counterexample :
    Reachable cfgEx stPausedEx ∧
    (stPausedEx.matchesOf 7).status = STAKED ∧
    1 = (stPausedEx.matchesOf 7).p1 ∧
    commitResult cfgEx stPausedEx cfgEx.operator 7 1 = .error .tokenPaused ∧
    ∀ st2, commitResult cfgEx stPausedEx cfgEx.operator 7 1 ≠ .ok st2 := by
  refine ⟨⟨deployerEx, balEx, opsPausedEx, by decide, rfl⟩, by decide,
    by decide, rfl, ?_⟩
  intro st2 h
  rw [show commitResult cfgEx stPausedEx cfgEx.operator 7 1 =
    .error .tokenPaused from rfl] at h
  cases h

/-- C1 amended: in every reachable state whose match `k` is STAKED, provided
the token is not paused (and the contract address is non-zero, as any
deployed address is), `commitResult` called by the operator with a winner who
is one of the two players succeeds, sets the match status to SETTLED, and
transfers exactly twice the stake out of the pooled contract balance — which
held the match custody of exactly that — to the winner, leaving the match
holding no custody; afterwards any second `commitResult` on the same id fails
regardless of its arguments. -/
theorem C1_commitResult_settles_once (cfg : Config) (st : EngineState)
    (k : B32) (w : Addr) (hre : Reachable cfg st)
    (hst : (st.matchesOf k).status = STAKED)
    (hw : w = (st.matchesOf k).p1 ∨ w = (st.matchesOf k).p2)
    (hpause : st.token.paused = false) (hself : cfg.self ≠ 0) :
    custodyHeld (st.matchesOf k) = (st.matchesOf k).stake * 2 ∧
    (st.matchesOf k).stake * 2 ≤ st.token.balances cfg.self ∧
    ∃ st2, commitResult cfg st cfg.operator k w = .ok st2 ∧
      (st2.matchesOf k).status = SETTLED ∧
      st2.token.balances w =
        st.token.balances w + (st.matchesOf k).stake * 2 ∧
      st2.token.balances cfg.self =
        st.token.balances cfg.self - (st.matchesOf k).stake * 2 ∧
      custodyHeld (st2.matchesOf k) = 0 ∧
      ∀ c2 w2, ∃ e, commitResult cfg st2 c2 k w2 = .error e := by
  have hI := reachable_inv cfg st hre
  obtain ⟨hcust, hbal, st2, hok, hm, hothers, hbw, hbself, hoth⟩ :=
    commitResult_succeeds cfg st k w hI hst hw hpause hself
  refine ⟨hcust, hbal, st2, hok, by rw [hm], hbw, hbself, ?_, ?_⟩
  · rw [hm]
    simp [custodyHeld, SETTLED, CREATED, STAKED]
  · intro c2 w2
    apply commitResult_err
    rw [hm]
    simp [SETTLED, STAKED]

/-- Witness for the amended C1 on the concrete staked match 7 with the token
not paused. -/
theorem C1_witness :
    ∃ st2, commitResult cfgEx stStakedEx cfgEx.operator 7 1 = .ok st2 ∧
      (st2.matchesOf 7).status = SETTLED ∧
      st2.token.balances 1 =
        stStakedEx.token.balances 1 + (stStakedEx.matchesOf 7).stake * 2 ∧
      st2.token.balances cfgEx.self =
        stStakedEx.token.balances cfgEx.self -
          (stStakedEx.matchesOf 7).stake * 2 ∧
      custodyHeld (st2.matchesOf 7) = 0 ∧
      ∀ c2 w2, ∃ e, commitResult cfgEx st2 c2 7 w2 = .error e :=
  (C1_commitResult_settles_once cfgEx stStakedEx 7 1
    ⟨deployerEx, balEx, opsStakedEx, by decide, rfl⟩ (by decide)
    (Or.inl (by decide)) (by decide) (by decide)).2.2

/-- C2: over any transaction sequence from deployment — PlayGame calls and
token calls alike — a match status only ever moves forward along
CREATED → STAKED → (SETTLED or REFUNDED), and once a match is SETTLED or
REFUNDED no later operation changes its status. -/
theorem C2_status_monotonic (cfg : Config) (d : Addr) (L : Addr → Nat)
    (ops1 ops2 : List Op) (k : B32) :
    StatusReach ((run cfg (initState d L) ops1).matchesOf k).status
      ((run cfg (initState d L) (ops1 ++ ops2)).matchesOf k).status ∧
    (((run cfg (initState d L) ops1).matchesOf k).status = SETTLED ∨
        ((run cfg (initState d L) ops1).matchesOf k).status = REFUNDED →
      ((run cfg (initState d L) (ops1 ++ ops2)).matchesOf k).status =
        ((run cfg (initState d L) ops1).matchesOf k).status) := by
  have hCo := core_run cfg (initState d L) ops1 (core_init d L)
  have h1 := status_run cfg (run cfg (initState d L) ops1) ops2 k hCo
  rw [run_append]
  refine ⟨h1, fun hterm => ?_⟩
  simp only [StatusReach, SETTLED, REFUNDED, CREATED, STAKED] at h1 hterm ⊢
  omega

/-- Witness for C2: after settling match 7, a later refund attempt leaves the
status SETTLED. -/
theorem C2_witness :
    ((run cfgEx (initState deployerEx balEx)
        (opsSettledEx ++ [Op.refundCall 7 999])).matchesOf 7).status = SETTLED := by
  have h := (C2_status_monotonic cfgEx deployerEx balEx opsSettledEx
    [Op.refundCall 7 999] 7).2 (Or.inl (by decide))
  rw [h]
  decide

end PlayGame

namespace PlayGame

open GameToken

/-- C4: when a successful `stake` call on a reachable state leaves both staked
flags set, the match moved from CREATED to STAKED in that call, `startTime`
was set to the (positive) block timestamp, the match custody inside the pool
is exactly twice the stake, the pool gained exactly one stake in the call, no
further `stake` call on the match can succeed, and in both the before and
after states the pooled contract balance covers the custody of all matches
together. -/
theorem C4_both_staked_transition (cfg : Config) (st : EngineState) (c : Addr)
    (k : B32) (now : Nat) (st2 : EngineState)
    (hre : Reachable cfg st) (hnow : 0 < now)
    (hok : stake cfg st c k now = .ok st2)
    (hboth : (st2.matchesOf k).p1Staked = true ∧
      (st2.matchesOf k).p2Staked = true) :
    (st.matchesOf k).status = CREATED ∧
    (st2.matchesOf k).status = STAKED ∧
    (st2.matchesOf k).startTime = now ∧
    0 < (st2.matchesOf k).startTime ∧
    custodyHeld (st2.matchesOf k) = (st2.matchesOf k).stake * 2 ∧
    st2.token.balances cfg.self =
      st.token.balances cfg.self + (st.matchesOf k).stake ∧
    (∀ c2 now2, stake cfg st2 c2 k now2 = .error .matchNotCreated) ∧
    escrowOk cfg st ∧ escrowOk cfg st2 := by
  have hI := reachable_inv cfg st hre
  have hI2 := inv_stake cfg st c k now st2 hI hok
  obtain ⟨hCo, hS, hAl, hE⟩ := hI
  obtain ⟨hid, hcr, hmem, hflag, t, hT, hst2⟩ := stake_ok_elim cfg st c k now st2 hok
  obtain ⟨hp, hf0, hd0, hal, hble, hmove, hoth, hrow, -, -, -⟩ :=
    transferFrom_ok st.token t cfg.self c cfg.self (st.matchesOf k).stake hT
  have hspos : 0 < (st.matchesOf k).stake := ((hCo k).2.1 hid).2.1
  have hcself : c ≠ cfg.self := by
    intro heq
    rw [heq, hAl cfg.self] at hal
    rcases hal with h | h
    · norm_num [MAXUINT] at h
    · omega
  have hmk : st2.matchesOf k = maybeStart (stakedMark (st.matchesOf k) c) now := by
    rw [hst2]
    simp [setMatch_eq]
  have hid2 : (st2.matchesOf k).id ≠ 0 := by
    rw [hmk, stake_id]
    exact hid
  have hstk : (st2.matchesOf k).status = STAKED ∧
      (st2.matchesOf k).startTime = now := by
    rcases stake_newMatch (st.matchesOf k) c now hflag with
      ⟨hc, hf, heq⟩ | ⟨hc, hf, heq⟩ | ⟨hc, hf, heq⟩ | ⟨hc, hf, heq⟩ <;>
      rw [hmk, heq]
    · exact ⟨rfl, rfl⟩
    · exfalso
      have := hboth.2
      rw [hmk, heq] at this
      simp only [] at this
      rw [hf] at this
      cases this
    · exact ⟨rfl, rfl⟩
    · exfalso
      have := hboth.1
      rw [hmk, heq] at this
      simp only [] at this
      rw [hf] at this
      cases this
  refine ⟨hcr, hstk.1, hstk.2, by rw [hstk.2]; exact hnow, ?_, ?_, ?_, hE, hI2.2.2.2⟩
  · simp [custodyHeld, stakedCount, hstk.1, hboth.1, hboth.2, STAKED, CREATED]
  · rw [hst2]
    simp only []
    exact (hmove hcself).2
  · intro c2 now2
    exact stake_err_notCreated cfg st2 k hid2
      (by simp [hstk.1, STAKED, CREATED]) c2 now2

/-- Witness for C4 on the concrete match 7, where player 2's stake at time 3
completes the pair. -/
theorem C4_witness :
    (stPreEx.matchesOf 7).status = CREATED ∧
    (stStakedEx.matchesOf 7).status = STAKED ∧
    (stStakedEx.matchesOf 7).startTime = 3 ∧
    0 < (stStakedEx.matchesOf 7).startTime ∧
    custodyHeld (stStakedEx.matchesOf 7) = (stStakedEx.matchesOf 7).stake * 2 ∧
    stStakedEx.token.balances cfgEx.self =
      stPreEx.token.balances cfgEx.self + (stPreEx.matchesOf 7).stake ∧
    (∀ c2 now2, stake cfgEx stStakedEx c2 7 now2 = .error .matchNotCreated) ∧
    escrowOk cfgEx stPreEx ∧ escrowOk cfgEx stStakedEx := by
  have h := C4_both_staked_transition cfgEx stPreEx 2 7 3 stStakedEx
    ⟨deployerEx, balEx, opsPreEx, by decide, rfl⟩ (by decide) rfl (by decide)
  exact ⟨rfl, h.2.1, h.2.2.1, h.2.2.2.1, h.2.2.2.2.1, h.2.2.2.2.2.1,
    h.2.2.2.2.2.2.1, h.2.2.2.2.2.2.2.1, h.2.2.2.2.2.2.2.2⟩

end PlayGame

namespace PlayGame

/-- C5 counterexample: in the reachable state where match 7 is STAKED and the
token has been paused by its admin, a `refund` call at time 999 — far past
`startTime + timeout` — does not succeed and refund the players as the claim
demands: it reverts with the token pause error. -/
theorem C5_counterexample :
    Reachable cfgEx stPausedEx ∧
    (stPausedEx.matchesOf 7).status = STAKED ∧
    (stPausedEx.matchesOf 7).startTime + cfgEx.timeout ≤ 999 ∧
    refund cfgEx stPausedEx 7 999 = .error .tokenPaused ∧
    ∀ st2, refund cfgEx stPausedEx 7 999 ≠ .ok st2 := by
  refine ⟨⟨deployerEx, balEx, opsPausedEx, by decide, rfl⟩, by decide,
    by decide, rfl, ?_⟩
  intro st2 h
  rw [show refund cfgEx stPausedEx 7 999 = .error .tokenPaused from rfl] at h
  cases h

/-- C5 amended: in every reachable state whose match `k` is STAKED, a `refund`
call strictly before `startTime + timeout` fails with the timeout error and
leaves the state unchanged; a call at or after `startTime + timeout` succeeds
— provided the token is not paused (and the contract address is non-zero, as
any deployed address is) — moving the match to REFUNDED and transferring
exactly `stake` from the pooled contract balance back to each of the two
players, whose staked flags are both necessarily true. -/
theorem C5_refund_timeout (cfg : Config) (st : EngineState) (k : B32)
    (now : Nat) (hre : Reachable cfg st)
    (hst : (st.matchesOf k).status = STAKED) :
    (now < (st.matchesOf k).startTime + cfg.timeout →
      refund cfg st k now = .error .timeoutNotReached ∧
      applyOp cfg st (.refundCall k now) = st) ∧
    ((st.matchesOf k).startTime + cfg.timeout ≤ now →
      st.token.paused = false → cfg.self ≠ 0 →
      ∃ st2, refund cfg st k now = .ok st2 ∧
        (st2.matchesOf k).status = REFUNDED ∧
        (st.matchesOf k).p1Staked = true ∧
        (st.matchesOf k).p2Staked = true ∧
        st2.token.balances (st.matchesOf k).p1 =
          st.token.balances (st.matchesOf k).p1 + (st.matchesOf k).stake ∧
        st2.token.balances (st.matchesOf k).p2 =
          st.token.balances (st.matchesOf k).p2 + (st.matchesOf k).stake ∧
        st2.token.balances cfg.self =
          st.token.balances cfg.self - (st.matchesOf k).stake * 2) := by
  have hI := reachable_inv cfg st hre
  have hid : (st.matchesOf k).id ≠ 0 :=
    id_ne_zero_of_status k (st.matchesOf k) (hI.1 k)
      (by simp [hst, STAKED, CREATED])
  constructor
  · intro hlt
    have herr := refund_err_timeout cfg st k now hid hst hlt
    exact ⟨herr, by simp [applyOp, step, herr]⟩
  · intro hge hpause hself
    obtain ⟨st2, hok, hmk, -, hb1, hb2, hbs⟩ :=
      refund_succeeds cfg st k now hI hst hge hpause hself
    have hboth := both_staked_of_staked k (st.matchesOf k) (hI.1 k) hst
    exact ⟨st2, hok, by rw [hmk], hboth.1, hboth.2, hb1, hb2, hbs⟩

/-- Witness for C5 on the concrete staked match 7 (startTime 3, timeout 50):
too early at time 10, successful at time 53. -/
theorem C5_witness :
    (refund cfgEx stStakedEx 7 10 = .error .timeoutNotReached ∧
      applyOp cfgEx stStakedEx (.refundCall 7 10) = stStakedEx) ∧
    ∃ st2, refund cfgEx stStakedEx 7 53 = .ok st2 ∧
      (st2.matchesOf 7).status = REFUNDED ∧
      (stStakedEx.matchesOf 7).p1Staked = true ∧
      (stStakedEx.matchesOf 7).p2Staked = true ∧
      st2.token.balances (stStakedEx.matchesOf 7).p1 =
        stStakedEx.token.balances (stStakedEx.matchesOf 7).p1 +
          (stStakedEx.matchesOf 7).stake ∧
      st2.token.balances (stStakedEx.matchesOf 7).p2 =
        stStakedEx.token.balances (stStakedEx.matchesOf 7).p2 +
          (stStakedEx.matchesOf 7).stake ∧
      st2.token.balances cfgEx.self =
        stStakedEx.token.balances cfgEx.self -
          (stStakedEx.matchesOf 7).stake * 2 := by
  have hre : Reachable cfgEx stStakedEx :=
    ⟨deployerEx, balEx, opsStakedEx, by decide, rfl⟩
  have h1 := C5_refund_timeout cfgEx stStakedEx 7 10 hre (by decide)
  have h2 := C5_refund_timeout cfgEx stStakedEx 7 53 hre (by decide)
  exact ⟨h1.1 (by decide), h2.2 (by decide) rfl (by decide)⟩

/-- C6: the stake call is all-or-nothing: whenever the `transferFrom` step
inside `stake` fails — for any of the token's failure modes: missing
allowance, missing balance, paused token, zero address — the whole call
reverts with that same error, no successor state exists, and the transaction
leaves the engine state (staked flags, status, startTime, token) exactly as
it was. -/
theorem C6_stake_atomic (cfg : Config) (st : EngineState) (c : Addr)
    (k : B32) (now : Nat) (e : Err)
    (hid : (st.matchesOf k).id ≠ 0)
    (hcr : (st.matchesOf k).status = CREATED)
    (hmem : c = (st.matchesOf k).p1 ∨ c = (st.matchesOf k).p2)
    (hflag : (if c = (st.matchesOf k).p1 then (st.matchesOf k).p1Staked
              else (st.matchesOf k).p2Staked) = false)
    (hT : GameToken.transferFrom st.token cfg.self c cfg.self
            (st.matchesOf k).stake = .error e) :
    stake cfg st c k now = .error e ∧
    (∀ st2, stake cfg st c k now ≠ .ok st2) ∧
    applyOp cfg st (.stakeCall c k now) = st := by
  have herr := stake_err_transfer cfg st c k now e hid hcr hmem hflag hT
  refine ⟨herr, ?_, by simp [applyOp, step, herr]⟩
  intro st2 h
  rw [herr] at h
  cases h

/-- Witness for C6: match 7 exists but player 1 never granted PlayGame an
allowance, so the transfer step fails and the stake call changes nothing. -/
theorem C6_witness :
    stake cfgEx stNoApproveEx 1 7 3 = .error .insufficientAllowance ∧
    (∀ st2, stake cfgEx stNoApproveEx 1 7 3 ≠ .ok st2) ∧
    applyOp cfgEx stNoApproveEx (.stakeCall 1 7 3) = stNoApproveEx :=
  C6_stake_atomic cfgEx stNoApproveEx 1 7 3 .insufficientAllowance
    (by decide) (by decide) (Or.inl (by decide)) (by decide) rfl

end PlayGame

namespace PlayGame

/-- C8: in every reachable state, a match where exactly one player's staked
flag is set is still CREATED — never STAKED — with `startTime` never set, no
matter how much time passes; `refund` on it fails with the not-staked error
at every time, and the single-sided stake (exactly one `stake` of custody)
remains covered by the pooled contract balance. -/
theorem C8_one_sided_stake_never_staked (cfg : Config) (st : EngineState)
    (k : B32) (hre : Reachable cfg st)
    (hone :
      (st.matchesOf k).p1Staked = true ∧ (st.matchesOf k).p2Staked = false ∨
      (st.matchesOf k).p1Staked = false ∧ (st.matchesOf k).p2Staked = true) :
    (st.matchesOf k).status = CREATED ∧
    (st.matchesOf k).status ≠ STAKED ∧
    (st.matchesOf k).startTime = 0 ∧
    (∀ now, refund cfg st k now = .error .matchNotStaked) ∧
    custodyHeld (st.matchesOf k) = (st.matchesOf k).stake ∧
    (st.matchesOf k).stake ≤ st.token.balances cfg.self := by
  have hI := reachable_inv cfg st hre
  have hMC := hI.1 k
  have hnotboth : ¬((st.matchesOf k).p1Staked = true ∧
      (st.matchesOf k).p2Staked = true) := by
    rcases hone with ⟨h1, h2⟩ | ⟨h1, h2⟩ <;> simp [h1, h2]
  have hcr := hMC.2.2.2 hnotboth
  have hns : (st.matchesOf k).status ≠ STAKED := by
    simp [hcr, CREATED, STAKED]
  have hid : (st.matchesOf k).id ≠ 0 := by
    intro h0
    have hemp := hMC.1 h0
    rcases hone with ⟨h1, -⟩ | ⟨-, h2⟩
    · rw [hemp] at h1
      cases h1
    · rw [hemp] at h2
      cases h2
  have hcust : custodyHeld (st.matchesOf k) = (st.matchesOf k).stake := by
    rcases hone with ⟨h1, h2⟩ | ⟨h1, h2⟩ <;>
      simp [custodyHeld, stakedCount, hcr, h1, h2, CREATED, STAKED]
  refine ⟨hcr, hns, hMC.2.2.1 hcr,
    fun now => refund_err_notStaked cfg st k now hid hns, hcust, ?_⟩
  rw [← hcust]
  exact escrow_bound cfg st hI.2.2.2 k

/-- Witness for C8 on the concrete match 7 where only player 1 has staked. -/
theorem C8_witness :
    (stOneEx.matchesOf 7).status = CREATED ∧
    (stOneEx.matchesOf 7).status ≠ STAKED ∧
    (stOneEx.matchesOf 7).startTime = 0 ∧
    (∀ now, refund cfgEx stOneEx 7 now = .error .matchNotStaked) ∧
    custodyHeld (stOneEx.matchesOf 7) = (stOneEx.matchesOf 7).stake ∧
    (stOneEx.matchesOf 7).stake ≤ stOneEx.token.balances cfgEx.self :=
  C8_one_sided_stake_never_staked cfgEx stOneEx 7
    ⟨deployerEx, balEx, opsOneEx, by decide, rfl⟩
    (Or.inl ⟨by decide, by decide⟩)

/-- C9 counterexample: in the reachable state where match 7 is STAKED past
its timeout but the token has been paused, `canRefund` — which reads only the
match record, never the token's pause flag — returns true, yet the `refund`
call it promises cannot succeed: it reverts on the pause-gated transfer. -/
theorem C9_counterexample :
    Reachable cfgEx stPausedEx ∧
    canRefund cfgEx stPausedEx 7 999 = true ∧
    ∀ st2, refund cfgEx stPausedEx 7 999 ≠ .ok st2 := by
  refine ⟨⟨deployerEx, balEx, opsPausedEx, by decide, rfl⟩, by decide, ?_⟩
  intro st2 h
  rw [show refund cfgEx stPausedEx 7 999 = .error .tokenPaused from rfl] at h
  cases h

/-- C9 amended: for every state and time, `canRefund` returns true exactly
when the refund preconditions hold (match exists, status STAKED, timeout
elapsed); and in a reachable state, provided the token is not paused (and
the contract address is non-zero), `canRefund` returns true exactly when a
`refund` call at that time would succeed. -/
theorem C9_canRefund_iff (cfg : Config) (st : EngineState) (k : B32)
    (now : Nat) (hre : Reachable cfg st)
    (hpause : st.token.paused = false) (hself : cfg.self ≠ 0) :
    (canRefund cfg st k now = true ↔
      ((st.matchesOf k).id ≠ 0 ∧ (st.matchesOf k).status = STAKED ∧
        (st.matchesOf k).startTime + cfg.timeout ≤ now)) ∧
    (canRefund cfg st k now = true ↔
      ∃ st2, refund cfg st k now = .ok st2) := by
  have hpre : canRefund cfg st k now = true ↔
      ((st.matchesOf k).id ≠ 0 ∧ (st.matchesOf k).status = STAKED ∧
        (st.matchesOf k).startTime + cfg.timeout ≤ now) := by
    simp [canRefund, and_assoc]
  refine ⟨hpre, hpre.trans ⟨?_, ?_⟩⟩
  · rintro ⟨hid, hst, htime⟩
    obtain ⟨st2, hok, -⟩ := refund_succeeds cfg st k now
      (reachable_inv cfg st hre) hst htime hpause hself
    exact ⟨st2, hok⟩
  · rintro ⟨st2, hok⟩
    obtain ⟨hid, hst, htime, -⟩ := refund_ok_elim cfg st k now st2 hok
    exact ⟨hid, hst, htime⟩

/-- Witness for C9 on the concrete staked, unpaused match 7 at time 53. -/
theorem C9_witness :
    (canRefund cfgEx stStakedEx 7 53 = true ↔
      ((stStakedEx.matchesOf 7).id ≠ 0 ∧
        (stStakedEx.matchesOf 7).status = STAKED ∧
        (stStakedEx.matchesOf 7).startTime + cfgEx.timeout ≤ 53)) ∧
    (canRefund cfgEx stStakedEx 7 53 = true ↔
      ∃ st2, refund cfgEx stStakedEx 7 53 = .ok st2) :=
  C9_canRefund_iff cfgEx stStakedEx 7 53
    ⟨deployerEx, balEx, opsStakedEx, by decide, rfl⟩ rfl (by decide)

/-- C10: over every deployment and transaction history, `getMatch` returns a
record whose id is non-zero exactly when a `createMatch` for that id
succeeded somewhere in the history; on a never-created id it returns the
all-zero record (whose status reads CREATED, i.e. 0); and the sentinel is
sound because `createMatch` with the zero id can never succeed. -/
theorem C10_getMatch_zero_sentinel (cfg : Config) (d : Addr) (L : Addr → Nat)
    (ops : List Op) (k : B32) :
    ((getMatch (run cfg (initState d L) ops) k).id ≠ 0 ↔
      createdIn cfg (initState d L) ops k = true) ∧
    (createdIn cfg (initState d L) ops k = false →
      getMatch (run cfg (initState d L) ops) k = emptyMatch ∧
      (getMatch (run cfg (initState d L) ops) k).status = CREATED) ∧
    (∀ st2 c p1 p2 s,
      createMatch cfg (run cfg (initState d L) ops) c 0 p1 p2 s ≠ .ok st2) := by
  have hiff : ((run cfg (initState d L) ops).matchesOf k).id ≠ 0 ↔
      createdIn cfg (initState d L) ops k = true := by
    rw [id_run_iff]
    have h0 : ¬((initState d L).matchesOf k).id ≠ 0 := fun h => h rfl
    tauto
  have hCo := core_run cfg (initState d L) ops (core_init d L)
  refine ⟨hiff, ?_, ?_⟩
  · intro hnc
    have hz : ((run cfg (initState d L) ops).matchesOf k).id = 0 := by
      by_contra hnz
      rw [hiff.1 hnz] at hnc
      cases hnc
    have hemp := (hCo k).1 hz
    refine ⟨hemp, ?_⟩
    rw [show getMatch (run cfg (initState d L) ops) k =
      (run cfg (initState d L) ops).matchesOf k from rfl, hemp]
    rfl
  · intro st2 c p1 p2 s h
    rw [createMatch_ok_iff] at h
    exact h.2.1 rfl

/-- Witness for C10: after the half-staked history of match 7, id 7 reads
back non-zero, the never-created id 9 reads back as the all-zero record, and
a zero-id creation attempt fails. -/
theorem C10_witness :
    ((getMatch (run cfgEx (initState deployerEx balEx) opsOneEx) 7).id ≠ 0 ↔
      createdIn cfgEx (initState deployerEx balEx) opsOneEx 7 = true) ∧
    (getMatch (run cfgEx (initState deployerEx balEx) opsOneEx) 9 =
      emptyMatch ∧
     (getMatch (run cfgEx (initState deployerEx balEx) opsOneEx) 9).status =
      CREATED) ∧
    (∀ st2 c p1 p2 s, createMatch cfgEx
      (run cfgEx (initState deployerEx balEx) opsOneEx) c 0 p1 p2 s ≠
        .ok st2) := by
  have h7 := C10_getMatch_zero_sentinel cfgEx deployerEx balEx opsOneEx 7
  have h9 := C10_getMatch_zero_sentinel cfgEx deployerEx balEx opsOneEx 9
  exact ⟨h7.1, h9.2.1 (by decide), h7.2.2⟩

end PlayGame

namespace Leaderboard

/-- C3: the indexer does not deduplicate replayed events — delivering the
very same Settled event (same match, winner, amount, block and transaction
hash) a second time doubles the winner's wins, totalWon and matchesPlayed
instead of leaving them unchanged. -/
theorem C3_replay_not_idempotent :
    getPlayerStats (handleSettledEvent
        (handleSettledEvent ⟨[], []⟩ 7 10 200 5 77) 7 10 200 5 77) 10 =
      some { address := 10, wins := 2, totalWon := 400, matchesPlayed := 2 } ∧
    getPlayerStats (handleSettledEvent ⟨[], []⟩ 7 10 200 5 77) 10 =
      some { address := 10, wins := 1, totalWon := 200, matchesPlayed := 1 } ∧
    getPlayerStats (handleSettledEvent
        (handleSettledEvent ⟨[], []⟩ 7 10 200 5 77) 7 10 200 5 77) 10 ≠
      getPlayerStats (handleSettledEvent ⟨[], []⟩ 7 10 200 5 77) 10 := by
  decide

/-- C7 counterexample: on three players fully tied on `totalWon` and `wins`,
inserted in address order 5, 3, 4, the query returns them in table order
5, 3, 4, which is ordered by address in neither direction — the ORDER BY
clause has no address key, so the claimed address tie-break does not hold. -/
theorem C7_counterexample :
    ¬ List.Pairwise (fun a b => specOrdAsc a b = true) (getLeaderboard dbEx7 3) ∧
    ¬ List.Pairwise (fun a b => specOrdDesc a b = true) (getLeaderboard dbEx7 3) ∧
    (getLeaderboard dbEx7 3).map PlayerRow.address = [5, 3, 4] := by
  decide

/-- C7 amended: `getLeaderboard` returns min(limit, table size) rows, pairwise
ordered by `totalWon` descending with ties broken by `wins` descending, and
they are a top segment — together with the omitted rows they are a permutation
of the players table, and every returned row dominates every omitted row under
the two sort keys.  Rows tied on both keys carry no further tie-break, so the
order among them is not determined by the player data alone. -/
theorem C7_leaderboard_top_sorted (db : DB) (n : Nat) :
    List.Pairwise rowLE (getLeaderboard db n) ∧
    (getLeaderboard db n).length = min n db.players.length ∧
    ∃ rest, ((getLeaderboard db n) ++ rest).Perm db.players ∧
      ∀ a ∈ getLeaderboard db n, ∀ b ∈ rest, rowLE a b := by
  have hs : List.Pairwise rowLE (List.insertionSort rowLE db.players) :=
    List.sorted_insertionSort rowLE db.players
  have hp := List.perm_insertionSort rowLE db.players
  refine ⟨?_, ?_, ?_⟩
  · exact List.Pairwise.sublist (List.take_sublist n _) hs
  · rw [getLeaderboard, List.length_take, hp.length_eq]
  · refine ⟨(List.insertionSort rowLE db.players).drop n, ?_, ?_⟩
    · rw [getLeaderboard, List.take_append_drop]
      exact hp
    · intro a ha b hb
      have h2 : List.Pairwise rowLE
          ((List.insertionSort rowLE db.players).take n ++
            (List.insertionSort rowLE db.players).drop n) := by
        rw [List.take_append_drop]
        exact hs
      exact (List.pairwise_append.mp h2).2.2 a ha b hb

end Leaderboard
